import Mathlib

/-!
# Verification of the four-level page-table manager (`threads/mmu.c`)

Shallow embedding of the x86-64 four-level page-table code
(PML4 → PDPT → page directory → page table) of the repository,
together with proofs about the walker, the lifecycle operations, the
mapping operations and the traversal.

Modelling decisions, all taken from the source:
* Physical memory is a map from physical page numbers to pages of 512
  64-bit entries (`Mem.pages`), plus the frame allocator's free list
  (`Mem.free`).  Entry values are `Nat`, with `% 2^64` applied wherever
  the C code can produce a value that 64-bit arithmetic would truncate.
* The physical↔kernel-virtual translation (`vtop`/`ptov`, the direct
  map) is an external, total, fixed additive offset per the spec; it is
  modelled with offset 0, so a kernel virtual address equals the
  physical address, and a pointer to a page-table page is represented
  by its physical page number.
* `palloc_get_page`/`palloc_free_page` are the external frame
  allocator: allocation pops the head of the free list (failing exactly
  when the list is empty), freeing pushes onto it.  `PAL_ZERO` zeroes
  the returned frame, as in the source.
* Null pointers are structural (`Option`); a page number is never a
  null marker (in the kernel, `ptov` of physical address 0 is not the
  null pointer).
* Fatal assertions are modelled where a claim is about them
  (`pml4_destroy` returns `none` on the `pml4 != base_pml4` assertion);
  TLB manipulation (`lcr3`, `invlpg`, `rcr3`) is hardware state outside
  the memory model and is not modelled.
* The constants of the missing header `threads/pte.h` (`PTE_P` …,
  `PTE_ADDR`, the level shifts and index extractors) are modelled from
  the spec's data model: four 9-bit index fields, most significant
  first, above a 12-bit page offset; flag bits Present, Writable,
  User, Accessed, Dirty in the low flag bits of an entry.
-/

namespace Pintos

/-- Page size in bytes (4 KiB pages; 512 eight-byte entries per level). -/
def PGSIZE : Nat := 4096

/-- Modelled from the spec: Present flag bit of a page-table entry. -/
def PTE_P : Nat := 1
/-- Modelled from the spec: Writable flag bit. -/
def PTE_W : Nat := 2
/-- Modelled from the spec: User-accessible flag bit. -/
def PTE_U : Nat := 4
/-- Modelled from the spec: Accessed flag bit. -/
def PTE_A : Nat := 0x20
/-- Modelled from the spec: Dirty flag bit. -/
def PTE_D : Nat := 0x40

/-- Modelled from the spec: `PTE_ADDR`, the frame-aligned physical-address
field of an entry (bits 12–63; the low 12 bits are flags). -/
def pteAddr (e : Nat) : Nat := e &&& 0xFFFFFFFFFFFFF000

/-- Modelled from the spec: `PML4(va)`, the coarsest (level-4) index field. -/
def PML4 (va : Nat) : Nat := va >>> 39 % 512
/-- Modelled from the spec: `PDPE(va)`, the level-3 index field. -/
def PDPE (va : Nat) : Nat := va >>> 30 % 512
/-- Modelled from the spec: `PDX(va)`, the level-2 index field. -/
def PDX (va : Nat) : Nat := va >>> 21 % 512
/-- Modelled from the spec: `PTX(va)`, the finest (level-1) index field. -/
def PTX (va : Nat) : Nat := va >>> 12 % 512

/-- Kernel-virtual → physical translation (`vtop`).  The direct map is
modelled with offset 0, and the result is a 64-bit quantity. -/
def vtop (a : Nat) : Nat := a % 2 ^ 64

/-- The page number a page-table entry points at:
`ptov (PTE_ADDR e)` viewed as a page number under the offset-0 direct map. -/
def pageOf (e : Nat) : Nat := pteAddr e / PGSIZE

/-- Machine state: physical page contents (page number → slot → 64-bit entry) and the external allocator's free list of page numbers. -/
structure Mem where
  pages : Nat → Nat → Nat
  free : List Nat

/-- Store value `v` into slot `i` of page `pg` (a `*pte = v` through the
direct map). -/
def writeEnt (m : Mem) (pg i v : Nat) : Mem :=
  { m with pages := fun p j => if p = pg ∧ j = i then v else m.pages p j }

/-- Zero a whole page (the allocator's `PAL_ZERO`). -/
def zeroPage (m : Mem) (pg : Nat) : Mem :=
  { m with pages := fun p j => if p = pg then 0 else m.pages p j }

/-- `palloc_get_page`: pop the head of the free list; fail exactly when
the pool is exhausted; zero the frame when `PAL_ZERO` is passed. -/
def palloc_get_page (m : Mem) (zero : Bool) : Option Nat × Mem :=
  match m.free with
  | [] => (none, m)
  | p :: rest =>
    (some p, if zero then zeroPage { m with free := rest } p
             else { m with free := rest })

/-- `palloc_free_page`: return a frame to the pool. -/
def palloc_free_page (m : Mem) (pg : Nat) : Mem :=
  { m with free := pg :: m.free }

/-- The entry value installed for a freshly created interior node:
`vtop (new_page) | PTE_U | PTE_W | PTE_P` in the source. -/
def newEnt (np : Nat) : Nat := vtop (np * PGSIZE) ||| PTE_U ||| PTE_W ||| PTE_P

/-- `pgdir_walk` (level 2 → 1): locate the page-table entry for `va`
inside the page directory `pdp`, creating the missing page table when
`create` is set.  A located entry is the pair (page number, slot). -/
def pgdir_walk (m : Mem) (pdp : Option Nat) (va : Nat) (create : Bool) :
    Option (Nat × Nat) × Mem :=
  match pdp with
  | none => (none, m)
  | some pd =>
    if m.pages pd (PDX va) &&& PTE_P ≠ 0 then
      (some (pageOf (m.pages pd (PDX va)), PTX va), m)
    else if create then
      match palloc_get_page m true with
      | (none, m₁) => (none, m₁)
      | (some np, m₁) =>
        let m₂ := writeEnt m₁ pd (PDX va) (newEnt np)
        (some (pageOf (m₂.pages pd (PDX va)), PTX va), m₂)
    else (none, m)

/-- `pdpe_walk` (level 3 → 1): locate the page-table entry for `va`
through the page-directory-pointer table `pdpe`.  On failure below a
node this call itself created, the node is freed and its entry
re-cleared (the `allocated` rollback of the source). -/
def pdpe_walk (m : Mem) (pdpe : Option Nat) (va : Nat) (create : Bool) :
    Option (Nat × Nat) × Mem :=
  match pdpe with
  | none => (none, m)
  | some pp =>
    if m.pages pp (PDPE va) &&& PTE_P ≠ 0 then
      pgdir_walk m (some (pageOf (m.pages pp (PDPE va)))) va create
    else if create then
      match palloc_get_page m true with
      | (none, m₁) => (none, m₁)
      | (some np, m₁) =>
        let m₂ := writeEnt m₁ pp (PDPE va) (newEnt np)
        match pgdir_walk m₂ (some (pageOf (m₂.pages pp (PDPE va)))) va create with
        | (some r, m₃) => (some r, m₃)
        | (none, m₃) =>
          let m₄ := palloc_free_page m₃ (pageOf (m₃.pages pp (PDPE va)))
          (none, writeEnt m₄ pp (PDPE va) 0)
    else (none, m)

/-- `pml4e_walk` (level 4 → 1): locate the page-table entry slot for
`va` starting from the root `pml4`, with the same creation/rollback
discipline as `pdpe_walk`. -/
def pml4e_walk (m : Mem) (pml4 : Option Nat) (va : Nat) (create : Bool) :
    Option (Nat × Nat) × Mem :=
  match pml4 with
  | none => (none, m)
  | some p4 =>
    if m.pages p4 (PML4 va) &&& PTE_P ≠ 0 then
      pdpe_walk m (some (pageOf (m.pages p4 (PML4 va)))) va create
    else if create then
      match palloc_get_page m true with
      | (none, m₁) => (none, m₁)
      | (some np, m₁) =>
        let m₂ := writeEnt m₁ p4 (PML4 va) (newEnt np)
        match pdpe_walk m₂ (some (pageOf (m₂.pages p4 (PML4 va)))) va create with
        | (some r, m₃) => (some r, m₃)
        | (none, m₃) =>
          let m₄ := palloc_free_page m₃ (pageOf (m₃.pages p4 (PML4 va)))
          (none, writeEnt m₄ p4 (PML4 va) 0)
    else (none, m)

/-- The pure read-only walk: the value `pml4e_walk` computes when
`create` is false (it then never mutates the state). -/
def lookupPTE (m : Mem) (pml4 : Option Nat) (va : Nat) : Option (Nat × Nat) :=
  match pml4 with
  | none => none
  | some p4 =>
    if m.pages p4 (PML4 va) &&& PTE_P ≠ 0 then
      if m.pages (pageOf (m.pages p4 (PML4 va))) (PDPE va) &&& PTE_P ≠ 0 then
        if m.pages (pageOf (m.pages (pageOf (m.pages p4 (PML4 va))) (PDPE va)))
            (PDX va) &&& PTE_P ≠ 0 then
          some (pageOf (m.pages (pageOf (m.pages (pageOf (m.pages p4 (PML4 va)))
            (PDPE va))) (PDX va)), PTX va)
        else none
      else none
    else none

/-- `pml4_create`: one raw frame, filled with a byte-for-byte copy of
the kernel template root `base`. -/
def pml4_create (m : Mem) (base : Nat) : Option Nat × Mem :=
  match palloc_get_page m false with
  | (none, m₁) => (none, m₁)
  | (some p, m₁) =>
    (some p, { m₁ with pages := fun q j => if q = p then m₁.pages base j else m₁.pages q j })

/-- `pml4_get_page`: read-only walk; if the leaf entry is Present,
the kernel-virtual address of the mapped frame plus the page offset. -/
def pml4_get_page (m : Mem) (pml4 : Option Nat) (uaddr : Nat) : Option Nat :=
  match pml4e_walk m pml4 uaddr false with
  | (some (pt, i), m₁) =>
    if m₁.pages pt i &&& PTE_P ≠ 0 then some (pteAddr (m₁.pages pt i) + uaddr % PGSIZE)
    else none
  | (none, _) => none

/-- `pml4_set_page`: creating walk, then install
`vtop (kpage) | PTE_P | (rw ? PTE_W : 0) | PTE_U` in the leaf slot. -/
def pml4_set_page (m : Mem) (pml4 : Option Nat) (upage kpage : Nat) (rw : Bool) :
    Bool × Mem :=
  match pml4e_walk m pml4 upage true with
  | (some (pt, i), m₁) =>
    (true, writeEnt m₁ pt i (vtop kpage ||| PTE_P ||| (if rw then PTE_W else 0) ||| PTE_U))
  | (none, m₁) => (false, m₁)

/-- `pml4_clear_page`: read-only walk; if the leaf entry is Present,
clear exactly the Present bit (`*pte &= ~PTE_P`; `~PTE_P` sign-extends
to the 64-bit mask `2^64 - 2`). -/
def pml4_clear_page (m : Mem) (pml4 : Option Nat) (upage : Nat) : Mem :=
  match pml4e_walk m pml4 upage false with
  | (some (pt, i), m₁) =>
    if m₁.pages pt i &&& PTE_P ≠ 0 then
      writeEnt m₁ pt i (m₁.pages pt i &&& 0xFFFFFFFFFFFFFFFE)
    else m₁
  | (none, m₁) => m₁

/-- `pml4_is_dirty`: `pte != NULL && (*pte & PTE_D) != 0`. -/
def pml4_is_dirty (m : Mem) (pml4 : Option Nat) (vpage : Nat) : Bool :=
  match pml4e_walk m pml4 vpage false with
  | (some (pt, i), m₁) => m₁.pages pt i &&& PTE_D ≠ 0
  | (none, _) => false

/-- `pml4_set_dirty`.  The clearing direction is
`*pte &= ~(uint32_t) PTE_D`: the 32-bit complement zero-extends, so the
mask is `0xFFFFFFBF` (an exact rendering of the source). -/
def pml4_set_dirty (m : Mem) (pml4 : Option Nat) (vpage : Nat) (dirty : Bool) : Mem :=
  match pml4e_walk m pml4 vpage false with
  | (some (pt, i), m₁) =>
    if dirty then writeEnt m₁ pt i (m₁.pages pt i ||| PTE_D)
    else writeEnt m₁ pt i (m₁.pages pt i &&& 0xFFFFFFBF)
  | (none, m₁) => m₁

/-- `pml4_is_accessed`: `pte != NULL && (*pte & PTE_A) != 0`. -/
def pml4_is_accessed (m : Mem) (pml4 : Option Nat) (vpage : Nat) : Bool :=
  match pml4e_walk m pml4 vpage false with
  | (some (pt, i), m₁) => m₁.pages pt i &&& PTE_A ≠ 0
  | (none, _) => false

/-- `pml4_set_accessed`; clearing uses `~(uint32_t) PTE_A`, i.e. the
zero-extended mask `0xFFFFFFDF`, exactly as the source. -/
def pml4_set_accessed (m : Mem) (pml4 : Option Nat) (vpage : Nat) (accessed : Bool) : Mem :=
  match pml4e_walk m pml4 vpage false with
  | (some (pt, i), m₁) =>
    if accessed then writeEnt m₁ pt i (m₁.pages pt i ||| PTE_A)
    else writeEnt m₁ pt i (m₁.pages pt i &&& 0xFFFFFFDF)
  | (none, m₁) => m₁

/-- `pt_destroy`: free every Present leaf frame of a page table, then
the page-table page itself. -/
def pt_destroy (m : Mem) (pt : Nat) : Mem :=
  palloc_free_page
    ((List.range 512).foldl
      (fun acc i =>
        if acc.pages pt i &&& PTE_P ≠ 0 then
          palloc_free_page acc (pageOf (acc.pages pt i))
        else acc)
      m)
    pt

/-- `pgdir_destroy`: destroy every Present page table below a page
directory, then free the directory page. -/
def pgdir_destroy (m : Mem) (pd : Nat) : Mem :=
  palloc_free_page
    ((List.range 512).foldl
      (fun acc i =>
        if acc.pages pd i &&& PTE_P ≠ 0 then
          pt_destroy acc (pageOf (acc.pages pd i))
        else acc)
      m)
    pd

/-- `pdpe_destroy`: destroy every Present page directory below a PDPT,
then free the PDPT page. -/
def pdpe_destroy (m : Mem) (pp : Nat) : Mem :=
  palloc_free_page
    ((List.range 512).foldl
      (fun acc i =>
        if acc.pages pp i &&& PTE_P ≠ 0 then
          pgdir_destroy acc (pageOf (acc.pages pp i))
        else acc)
      m)
    pp

/-- `pml4_destroy`: `none` models the fatal
`ASSERT (pml4 != base_pml4)`; a null root returns immediately; otherwise
only top-level slot 0 (the private user slot; "PML4 (vaddr) >= 1 is
kernel space") is descended into, then the root frame is freed. -/
def pml4_destroy (m : Mem) (base : Nat) (pml4 : Option Nat) : Option Mem :=
  match pml4 with
  | none => some m
  | some p4 =>
    if p4 = base then none
    else
      some (palloc_free_page
        (if m.pages p4 0 &&& PTE_P ≠ 0 then pdpe_destroy m (pageOf (m.pages p4 0)) else m)
        p4)

/-- Virtual-address reconstruction of `pt_for_each`:
`(pml4_index << PML4SHIFT) | (pdp_index << PDPESHIFT) | (pdx_index << PDXSHIFT) | (i << PTXSHIFT)`. -/
def vaOf (i4 i3 i2 i1 : Nat) : Nat :=
  i4 <<< 39 ||| i3 <<< 30 ||| i2 <<< 21 ||| i1 <<< 12

/-- `pt_for_each` with a pure visitor (the visitor receives the entry's
location and the reconstructed virtual address and answers
continue/stop). -/
def pt_for_each (m : Mem) (f : Nat × Nat → Nat → Bool) (pt : Nat)
    (i4 i3 i2 : Nat) : Bool :=
  (List.range 512).all fun i1 =>
    if m.pages pt i1 &&& PTE_P ≠ 0 then f (pt, i1) (vaOf i4 i3 i2 i1) else true

/-- `pgdir_for_each`. -/
def pgdir_for_each (m : Mem) (f : Nat × Nat → Nat → Bool) (pd : Nat)
    (i4 i3 : Nat) : Bool :=
  (List.range 512).all fun i2 =>
    if m.pages pd i2 &&& PTE_P ≠ 0 then
      pt_for_each m f (pageOf (m.pages pd i2)) i4 i3 i2
    else true

/-- `pdp_for_each`. -/
def pdp_for_each (m : Mem) (f : Nat × Nat → Nat → Bool) (pp : Nat)
    (i4 : Nat) : Bool :=
  (List.range 512).all fun i3 =>
    if m.pages pp i3 &&& PTE_P ≠ 0 then
      pgdir_for_each m f (pageOf (m.pages pp i3)) i4 i3
    else true

/-- `pml4_for_each`: visit every Present leaf entry of the whole trie,
kernel region included. -/
def pml4_for_each (m : Mem) (f : Nat × Nat → Nat → Bool) (p4 : Nat) : Bool :=
  (List.range 512).all fun i4 =>
    if m.pages p4 i4 &&& PTE_P ≠ 0 then
      pdp_for_each m f (pageOf (m.pages p4 i4)) i4
    else true

/-- The visit trace of `pt_for_each`: the (location, address) pairs the
visitor is invoked on, in loop order. -/
def pt_visits (m : Mem) (pt : Nat) (i4 i3 i2 : Nat) : List ((Nat × Nat) × Nat) :=
  (List.range 512).filterMap fun i1 =>
    if m.pages pt i1 &&& PTE_P ≠ 0 then some ((pt, i1), vaOf i4 i3 i2 i1) else none

/-- The visit trace of `pgdir_for_each`. -/
def pgdir_visits (m : Mem) (pd : Nat) (i4 i3 : Nat) : List ((Nat × Nat) × Nat) :=
  (List.range 512).flatMap fun i2 =>
    if m.pages pd i2 &&& PTE_P ≠ 0 then
      pt_visits m (pageOf (m.pages pd i2)) i4 i3 i2
    else []

/-- The visit trace of `pdp_for_each`. -/
def pdp_visits (m : Mem) (pp : Nat) (i4 : Nat) : List ((Nat × Nat) × Nat) :=
  (List.range 512).flatMap fun i3 =>
    if m.pages pp i3 &&& PTE_P ≠ 0 then
      pgdir_visits m (pageOf (m.pages pp i3)) i4 i3
    else []

/-- The visit trace of `pml4_for_each`: the full enumeration of Present
leaf entries with their reconstructed virtual addresses. -/
def pml4_visits (m : Mem) (p4 : Nat) : List ((Nat × Nat) × Nat) :=
  (List.range 512).flatMap fun i4 =>
    if m.pages p4 i4 &&& PTE_P ≠ 0 then
      pdp_visits m (pageOf (m.pages p4 i4)) i4
    else []

/-- The Present leaf mapping the trie holds for virtual address `va`:
the leaf entry's value when the read-only walk finds a Present leaf
entry, `none` otherwise. -/
def leafEntryAt (m : Mem) (pml4 : Option Nat) (va : Nat) : Option Nat :=
  match lookupPTE m pml4 va with
  | some (pt, i) => if m.pages pt i &&& PTE_P ≠ 0 then some (m.pages pt i) else none
  | none => none

/-- The child page named by a Present interior entry. -/
def childAt (m : Mem) (pg i : Nat) : Option Nat :=
  if m.pages pg i &&& PTE_P ≠ 0 then some (pageOf (m.pages pg i)) else none

/-- All child pages of an interior node. -/
def childrenOf (m : Mem) (pg : Nat) : List Nat :=
  (List.range 512).filterMap (childAt m pg)

/-- Level-3 interior nodes (PDPTs) of the trie rooted at `p4`. -/
def level3 (m : Mem) (p4 : Nat) : List Nat := childrenOf m p4

/-- Level-2 interior nodes (page directories). -/
def level2 (m : Mem) (p4 : Nat) : List Nat := (level3 m p4).flatMap (childrenOf m)

/-- Level-1 interior nodes (page tables). -/
def level1 (m : Mem) (p4 : Nat) : List Nat := (level2 m p4).flatMap (childrenOf m)

/-- Every interior node of the trie: the root and all three interior
levels. -/
def trieNodes (m : Mem) (p4 : Nat) : List Nat :=
  p4 :: (level3 m p4 ++ (level2 m p4 ++ level1 m p4))

/-- Well-formedness of a root: the interior nodes are pairwise distinct,
the free list has no duplicates, and free frames are not wired into the
trie and are genuine physical page numbers (below `2^52`, so that a
frame base address fits in the 52 physical-address bits of an entry). -/
def goodRoot (m : Mem) (p4 : Nat) : Prop :=
  (trieNodes m p4).Nodup ∧ m.free.Nodup ∧
    ∀ f ∈ m.free, f ∉ trieNodes m p4 ∧ f < 2 ^ 52

/-! ## Ownership characterization (C2's refinement target)

The following lists follow the spec's ownership wording — "every
interior node and leaf frame reachable through the private top-level
slot(s), plus the root frame itself"; the shared region is everything
reachable through the remaining (kernel) top-level slots. -/

/-- A page table's frames: the page-table page itself plus every frame
a Present leaf entry points at. -/
def ptFrames (m : Mem) (pt : Nat) : List Nat :=
  pt :: (List.range 512).filterMap fun i =>
    if m.pages pt i &&& PTE_P ≠ 0 then some (pageOf (m.pages pt i)) else none

/-- A page directory's frames: the directory page plus the frames of
every Present page table below it. -/
def pdFrames (m : Mem) (pd : Nat) : List Nat :=
  pd :: (childrenOf m pd).flatMap (ptFrames m)

/-- A PDPT's frames: the PDPT page plus the frames of every Present
page directory below it. -/
def pdptFrames (m : Mem) (pp : Nat) : List Nat :=
  pp :: (childrenOf m pp).flatMap (pdFrames m)

/-- Per the spec: the frames a root privately owns — every interior
node and leaf frame reachable through the private top-level slot 0
(the root frame itself is accounted separately). -/
def ownedFrames (m : Mem) (p4 : Nat) : List Nat :=
  match childAt m p4 0 with
  | none => []
  | some d1 => pdptFrames m d1

/-- Per the spec: the frames reachable through the shared (kernel)
top-level slots, i.e. every top-level slot other than 0. -/
def sharedFrames (m : Mem) (p4 : Nat) : List Nat :=
  (List.range 512).flatMap fun i =>
    if i = 0 then [] else
      match childAt m p4 i with
      | none => []
      | some d1 => pdptFrames m d1

/-! ## Concrete machines used to witness satisfiability of hypotheses -/

/-- A machine with an empty trie at root 1 and an exhausted allocator. -/
def mEmpty : Mem := { pages := fun _ _ => 0, free := [] }

/-- An empty trie at root 10 with three free frames — enough to
materialize one full interior path. -/
def mFree3 : Mem := { pages := fun _ _ => 0, free := [1, 2, 3] }

/-- An empty trie at root 10 with a single free frame — any creating
walk must fail after one interior allocation and roll back. -/
def mFree1 : Mem := { pages := fun _ _ => 0, free := [42] }

/-- A root (page 100) with one materialized interior path
100 → 200 → 300 → 400 for virtual address 0, whose leaf slot 0 holds
the entry value `leaf`. -/
def mChain (leaf : Nat) : Mem :=
  { pages := fun p j =>
      if p = 100 ∧ j = 0 then 200 * 4096 ||| 7
      else if p = 200 ∧ j = 0 then 300 * 4096 ||| 7
      else if p = 300 ∧ j = 0 then 400 * 4096 ||| 7
      else if p = 400 ∧ j = 0 then leaf
      else 0,
    free := [] }

/-! ## Leaf-entry decomposition (C8's view of the trie)

`leafFromPT`/`leafFromPD`/`leafFromPDPT` are `leafEntryAt` split by
level, and `deadPT`/`deadPD`/`deadPDPT` say that a subtree holds no
Present leaf entry: descending into it yields no mapping. -/

/-- No slot of the page table is Present. -/
def deadPT (m : Mem) (pt : Nat) : Prop :=
  ∀ j, m.pages pt j &&& PTE_P = 0

/-- Every page-directory slot is absent or leads to a dead page table. -/
def deadPD (m : Mem) (pd : Nat) : Prop :=
  ∀ j, m.pages pd j &&& PTE_P = 0 ∨ deadPT m (pageOf (m.pages pd j))

/-- Every PDPT slot is absent or leads to a dead page directory. -/
def deadPDPT (m : Mem) (pp : Nat) : Prop :=
  ∀ j, m.pages pp j &&& PTE_P = 0 ∨ deadPD m (pageOf (m.pages pp j))

/-- The Present leaf entry for `va` as seen from a page table. -/
def leafFromPT (m : Mem) (pt va : Nat) : Option Nat :=
  if m.pages pt (PTX va) &&& PTE_P ≠ 0 then some (m.pages pt (PTX va)) else none

/-- The Present leaf entry for `va` as seen from a page directory. -/
def leafFromPD (m : Mem) (pd va : Nat) : Option Nat :=
  if m.pages pd (PDX va) &&& PTE_P ≠ 0 then
    leafFromPT m (pageOf (m.pages pd (PDX va))) va
  else none

/-- The Present leaf entry for `va` as seen from a PDPT. -/
def leafFromPDPT (m : Mem) (pp va : Nat) : Option Nat :=
  if m.pages pp (PDPE va) &&& PTE_P ≠ 0 then
    leafFromPD m (pageOf (m.pages pp (PDPE va))) va
  else none

/-! ## Bit-arithmetic toolkit -/

theorem testBit_mul_pow_add (a b k j : Nat) (hb : b < 2 ^ k) :
    Nat.testBit (a * 2 ^ k + b) j =
      if j < k then Nat.testBit b j else Nat.testBit a (j - k) := by
  rcases Nat.lt_or_ge j k with hj | hj
  · rw [if_pos hj]
    rw [Nat.testBit_to_div_mod, Nat.testBit_to_div_mod]
    have hsplit : 2 ^ k = 2 ^ (k - j) * 2 ^ j := by
      rw [← pow_add]; congr 1; omega
    have hdiv : (a * 2 ^ k + b) / 2 ^ j = a * 2 ^ (k - j) + b / 2 ^ j := by
      rw [hsplit, ← Nat.mul_assoc, Nat.add_comm,
        Nat.add_mul_div_right _ _ (Nat.pos_pow_of_pos j (by norm_num)), Nat.add_comm]
    rw [hdiv]
    have hkj : ∃ t, k - j = t + 1 := ⟨k - j - 1, by omega⟩
    obtain ⟨t, ht⟩ := hkj
    rw [ht, pow_succ, ← Nat.mul_assoc]
    rw [Nat.add_comm, Nat.add_mul_mod_self_right]
  · rw [if_neg (by omega)]
    rw [Nat.testBit_to_div_mod, Nat.testBit_to_div_mod]
    have hsplit : 2 ^ j = 2 ^ k * 2 ^ (j - k) := by
      rw [← pow_add]; congr 1; omega
    have h1 : (a * 2 ^ k + b) / 2 ^ k = a := by
      rw [Nat.add_comm, Nat.add_mul_div_right _ _ (Nat.pos_pow_of_pos k (by norm_num)),
        Nat.div_eq_of_lt hb, Nat.zero_add]
    rw [hsplit, ← Nat.div_div_eq_div_mul, h1]

theorem shift_lor_eq_add (a b k : Nat) (hb : b < 2 ^ k) :
    a <<< k ||| b = a * 2 ^ k + b := by
  apply Nat.eq_of_testBit_eq
  intro j
  rw [Nat.testBit_or, Nat.testBit_shiftLeft, testBit_mul_pow_add a b k j hb]
  rcases Nat.lt_or_ge j k with hj | hj
  · rw [if_pos hj]
    simp [Nat.not_le.mpr hj]
  · rw [if_neg (by omega)]
    have hbj : Nat.testBit b j = false :=
      Nat.testBit_lt_two_pow (lt_of_lt_of_le hb (Nat.pow_le_pow_right (by norm_num) hj))
    simp [hj, hbj]

theorem testBit_addrMask (j : Nat) :
    Nat.testBit 0xFFFFFFFFFFFFF000 j = (decide (12 ≤ j) && decide (j < 64)) := by
  have hmask : (0xFFFFFFFFFFFFF000 : Nat) = (2 ^ 52 - 1) <<< 12 := by
    rw [Nat.shiftLeft_eq]; norm_num
  rw [hmask, Nat.testBit_shiftLeft, Nat.testBit_two_pow_sub_one]
  rcases Nat.lt_or_ge j 12 with hj | hj
  · simp [Nat.not_le.mpr hj]
  · have : j - 12 < 52 ↔ j < 64 := by omega
    simp [hj, this]

theorem testBit_aligned_low (x j : Nat) (hx : x % PGSIZE = 0) (hj : j < 12) :
    Nat.testBit x j = false := by
  have hx' : x = x / 2 ^ 12 * 2 ^ 12 + 0 := by
    have : (2 : Nat) ^ 12 = PGSIZE := by norm_num [PGSIZE]
    rw [this, Nat.add_zero, Nat.div_mul_cancel (Nat.dvd_of_mod_eq_zero hx)]
  rw [hx', testBit_mul_pow_add _ _ _ _ (by norm_num), if_pos hj]
  simp

theorem pteAddr_or_flags (x f : Nat) (hx : x % PGSIZE = 0) (hx64 : x < 2 ^ 64)
    (hf : f < PGSIZE) : pteAddr (x ||| f) = x := by
  unfold pteAddr
  apply Nat.eq_of_testBit_eq
  intro j
  rw [Nat.testBit_and, Nat.testBit_or, testBit_addrMask]
  rcases Nat.lt_or_ge j 12 with hj | hj
  · simp [Nat.not_le.mpr hj, testBit_aligned_low x j hx hj]
  · rcases Nat.lt_or_ge j 64 with hj64 | hj64
    · have hfj : Nat.testBit f j = false := by
        apply Nat.testBit_lt_two_pow
        calc f < PGSIZE := hf
        _ ≤ 2 ^ j := by
            have : PGSIZE = 2 ^ 12 := by norm_num [PGSIZE]
            rw [this]; exact Nat.pow_le_pow_right (by norm_num) hj
      simp [hj, hj64, hfj]
    · have hxj : Nat.testBit x j = false :=
        Nat.testBit_lt_two_pow
          (lt_of_lt_of_le hx64 (Nat.pow_le_pow_right (by norm_num) hj64))
      simp [Nat.not_lt.mpr hj64, hxj]

theorem pteAddr_of_aligned (x : Nat) (hx : x % PGSIZE = 0) (hx64 : x < 2 ^ 64) :
    pteAddr x = x := by
  have h := pteAddr_or_flags x 0 hx hx64 (by norm_num [PGSIZE])
  rwa [Nat.or_zero] at h

theorem mul_PGSIZE_lt (np : Nat) (h : np < 2 ^ 52) : np * PGSIZE < 2 ^ 64 := by
  calc np * PGSIZE < 2 ^ 52 * PGSIZE :=
        (Nat.mul_lt_mul_right (by norm_num [PGSIZE])).mpr h
  _ ≤ 2 ^ 64 := by norm_num [PGSIZE]

theorem newEnt_eq (np : Nat) (h : np < 2 ^ 52) :
    newEnt np = np * PGSIZE ||| 7 := by
  unfold newEnt vtop
  rw [Nat.mod_eq_of_lt (mul_PGSIZE_lt np h), Nat.or_assoc, Nat.or_assoc]
  have h7 : (PTE_U : Nat) ||| (PTE_W ||| PTE_P) = 7 := by decide
  rw [h7]

theorem pageOf_newEnt (np : Nat) (h : np < 2 ^ 52) : pageOf (newEnt np) = np := by
  rw [newEnt_eq np h]
  unfold pageOf
  rw [pteAddr_or_flags (np * PGSIZE) 7 (Nat.mul_mod_left _ _) (mul_PGSIZE_lt np h)
    (by norm_num [PGSIZE])]
  exact Nat.mul_div_cancel np (by norm_num [PGSIZE])

theorem testBit_presMask (j : Nat) :
    Nat.testBit 0xFFFFFFFFFFFFFFFE j = (decide (1 ≤ j) && decide (j < 64)) := by
  have hmask : (0xFFFFFFFFFFFFFFFE : Nat) = (2 ^ 63 - 1) <<< 1 := by
    rw [Nat.shiftLeft_eq]; norm_num
  rw [hmask, Nat.testBit_shiftLeft, Nat.testBit_two_pow_sub_one]
  rcases Nat.lt_or_ge j 1 with hj | hj
  · simp [Nat.not_le.mpr hj]
  · have : j - 1 < 63 ↔ j < 64 := by omega
    simp [hj, this]

theorem clearP_not_present (e : Nat) :
    (e &&& 0xFFFFFFFFFFFFFFFE) &&& PTE_P = 0 := by
  rw [Nat.and_assoc]
  have h : (0xFFFFFFFFFFFFFFFE : Nat) &&& PTE_P = 0 := by decide
  rw [h, Nat.and_zero]

theorem or_one_mod_two (x : Nat) : (x ||| 1) % 2 = 1 := by
  have h : Nat.testBit (x ||| 1) 0 = true := by
    rw [Nat.testBit_or]
    simp [Nat.testBit_to_div_mod]
  rw [Nat.testBit_to_div_mod] at h
  simpa using h

theorem newEnt_present (np : Nat) : newEnt np &&& PTE_P ≠ 0 := by
  unfold newEnt PTE_P
  rw [Nat.and_one_is_mod, or_one_mod_two]
  norm_num

/-! ## State-read simp lemmas -/

@[simp] theorem writeEnt_pages (m : Mem) (pg i v p j : Nat) :
    (writeEnt m pg i v).pages p j = if p = pg ∧ j = i then v else m.pages p j := rfl

@[simp] theorem writeEnt_free (m : Mem) (pg i v : Nat) :
    (writeEnt m pg i v).free = m.free := rfl

@[simp] theorem zeroPage_pages (m : Mem) (pg p j : Nat) :
    (zeroPage m pg).pages p j = if p = pg then 0 else m.pages p j := rfl

@[simp] theorem zeroPage_free (m : Mem) (pg : Nat) :
    (zeroPage m pg).free = m.free := rfl

@[simp] theorem palloc_free_page_pages (m : Mem) (pg p j : Nat) :
    (palloc_free_page m pg).pages p j = m.pages p j := rfl

theorem palloc_free_page_pages_fn (m : Mem) (pg : Nat) :
    (palloc_free_page m pg).pages = m.pages := rfl

@[simp] theorem palloc_free_page_free (m : Mem) (pg : Nat) :
    (palloc_free_page m pg).free = pg :: m.free := rfl

/-! ## The read-only walk never mutates and computes `lookupPTE` -/

theorem pgdir_walk_nocreate (m : Mem) (pd va : Nat) :
    pgdir_walk m (some pd) va false =
      (if m.pages pd (PDX va) &&& PTE_P ≠ 0 then
        some (pageOf (m.pages pd (PDX va)), PTX va) else none, m) := by
  by_cases h : m.pages pd (PDX va) &&& PTE_P = 0
  · simp [pgdir_walk, h]
  · simp [pgdir_walk, h]

theorem pdpe_walk_nocreate (m : Mem) (pp va : Nat) :
    pdpe_walk m (some pp) va false =
      (if m.pages pp (PDPE va) &&& PTE_P ≠ 0 then
        (pgdir_walk m (some (pageOf (m.pages pp (PDPE va)))) va false).1
       else none, m) := by
  by_cases h : m.pages pp (PDPE va) &&& PTE_P = 0
  · simp [pdpe_walk, h]
  · simp [pdpe_walk, h, pgdir_walk_nocreate]

theorem pml4e_walk_nocreate (m : Mem) (pml4 : Option Nat) (va : Nat) :
    pml4e_walk m pml4 va false = (lookupPTE m pml4 va, m) := by
  cases pml4 with
  | none => rfl
  | some p4 =>
    by_cases h4 : m.pages p4 (PML4 va) &&& PTE_P = 0
    · simp [pml4e_walk, lookupPTE, h4]
    · by_cases h3 : m.pages (pageOf (m.pages p4 (PML4 va))) (PDPE va) &&& PTE_P = 0
      · simp [pml4e_walk, lookupPTE, h4, h3, pdpe_walk_nocreate]
      · simp [pml4e_walk, lookupPTE, h4, h3, pdpe_walk_nocreate, pgdir_walk_nocreate]

/-! ## Trie-structure lemmas -/

theorem PML4_lt (va : Nat) : PML4 va < 512 := Nat.mod_lt _ (by norm_num)

theorem PDPE_lt (va : Nat) : PDPE va < 512 := Nat.mod_lt _ (by norm_num)

theorem PDX_lt (va : Nat) : PDX va < 512 := Nat.mod_lt _ (by norm_num)

theorem PTX_lt (va : Nat) : PTX va < 512 := Nat.mod_lt _ (by norm_num)

theorem mem_childrenOf (m : Mem) (pg i : Nat) (hi : i < 512)
    (h : m.pages pg i &&& PTE_P ≠ 0) :
    pageOf (m.pages pg i) ∈ childrenOf m pg := by
  unfold childrenOf
  exact List.mem_filterMap.mpr ⟨i, List.mem_range.mpr hi, by simp [childAt, h]⟩

theorem mem_level2_of (m : Mem) (p4 d1 i : Nat) (hd1 : d1 ∈ level3 m p4)
    (hi : i < 512) (h : m.pages d1 i &&& PTE_P ≠ 0) :
    pageOf (m.pages d1 i) ∈ level2 m p4 := by
  unfold level2
  exact List.mem_flatMap.mpr ⟨d1, hd1, mem_childrenOf m d1 i hi h⟩

theorem mem_level1_of (m : Mem) (p4 d2 i : Nat) (hd2 : d2 ∈ level2 m p4)
    (hi : i < 512) (h : m.pages d2 i &&& PTE_P ≠ 0) :
    pageOf (m.pages d2 i) ∈ level1 m p4 := by
  unfold level1
  exact List.mem_flatMap.mpr ⟨d2, hd2, mem_childrenOf m d2 i hi h⟩

/-- Distinctness facts extracted from `Nodup` of the interior-node list:
the root and the three interior levels are pairwise disjoint. -/
theorem trie_level_distinct (m : Mem) (p4 : Nat) (hg : (trieNodes m p4).Nodup) :
    (p4 ∉ level3 m p4 ∧ p4 ∉ level2 m p4 ∧ p4 ∉ level1 m p4) ∧
    (∀ a ∈ level3 m p4, a ∉ level2 m p4 ∧ a ∉ level1 m p4) ∧
    (∀ a ∈ level2 m p4, a ∉ level1 m p4) := by
  unfold trieNodes at hg
  rw [List.nodup_cons] at hg
  obtain ⟨hp, hrest⟩ := hg
  rw [List.nodup_append] at hrest
  obtain ⟨h3, hrest2, hd3⟩ := hrest
  rw [List.nodup_append] at hrest2
  obtain ⟨h2, h1, hd2⟩ := hrest2
  refine ⟨⟨?_, ?_, ?_⟩, ?_, ?_⟩
  · intro hmem; exact hp (List.mem_append.mpr (Or.inl hmem))
  · intro hmem; exact hp (List.mem_append.mpr (Or.inr (List.mem_append.mpr (Or.inl hmem))))
  · intro hmem; exact hp (List.mem_append.mpr (Or.inr (List.mem_append.mpr (Or.inr hmem))))
  · intro a ha
    constructor
    · intro hmem; exact hd3 ha (List.mem_append.mpr (Or.inl hmem))
    · intro hmem; exact hd3 ha (List.mem_append.mpr (Or.inr hmem))
  · intro a ha hmem
    exact hd2 ha hmem

/-- Decomposition of a successful read-only walk into its path facts. -/
theorem lookupPTE_path (m : Mem) (p4 va pt i : Nat)
    (h : lookupPTE m (some p4) va = some (pt, i)) :
    i = PTX va ∧
    m.pages p4 (PML4 va) &&& PTE_P ≠ 0 ∧
    m.pages (pageOf (m.pages p4 (PML4 va))) (PDPE va) &&& PTE_P ≠ 0 ∧
    m.pages (pageOf (m.pages (pageOf (m.pages p4 (PML4 va))) (PDPE va)))
      (PDX va) &&& PTE_P ≠ 0 ∧
    pt = pageOf (m.pages (pageOf (m.pages (pageOf (m.pages p4 (PML4 va)))
      (PDPE va))) (PDX va)) := by
  by_cases h1 : m.pages p4 (PML4 va) &&& PTE_P = 0
  · simp [lookupPTE, h1] at h
  · by_cases h2 : m.pages (pageOf (m.pages p4 (PML4 va))) (PDPE va) &&& PTE_P = 0
    · simp [lookupPTE, h1, h2] at h
    · by_cases h3 : m.pages (pageOf (m.pages (pageOf (m.pages p4 (PML4 va)))
          (PDPE va))) (PDX va) &&& PTE_P = 0
      · simp [lookupPTE, h1, h2, h3] at h
      · simp [lookupPTE, h1, h2, h3] at h
        exact ⟨h.2.symm, h1, h2, h3, h.1.symm⟩

/-- The leaf page of a successful read-only walk is a level-1 node, and
the nodes along the path inhabit levels 3, 2, 1 respectively. -/
theorem lookupPTE_levels (m : Mem) (p4 va pt i : Nat)
    (h : lookupPTE m (some p4) va = some (pt, i)) :
    pageOf (m.pages p4 (PML4 va)) ∈ level3 m p4 ∧
    pageOf (m.pages (pageOf (m.pages p4 (PML4 va))) (PDPE va)) ∈ level2 m p4 ∧
    pt ∈ level1 m p4 := by
  obtain ⟨hi, h4, h3, h2, hpt⟩ := lookupPTE_path m p4 va pt i h
  have m3 : pageOf (m.pages p4 (PML4 va)) ∈ level3 m p4 :=
    mem_childrenOf m p4 (PML4 va) (PML4_lt va) h4
  have m2 : pageOf (m.pages (pageOf (m.pages p4 (PML4 va))) (PDPE va)) ∈ level2 m p4 :=
    mem_level2_of m p4 _ (PDPE va) m3 (PDPE_lt va) h3
  have m1 : pt ∈ level1 m p4 := by
    rw [hpt]
    exact mem_level1_of m p4 _ (PDX va) m2 (PDX_lt va) h2
  exact ⟨m3, m2, m1⟩

/-- Writing through the leaf slot a successful read-only walk returned
does not change the walk: the path runs through the root and the
level-3/level-2 nodes, all distinct from the level-1 leaf page. -/
theorem lookupPTE_write_leaf (m : Mem) (p4 va pt i v : Nat)
    (hg : (trieNodes m p4).Nodup)
    (h : lookupPTE m (some p4) va = some (pt, i)) :
    lookupPTE (writeEnt m pt i v) (some p4) va = some (pt, i) := by
  obtain ⟨hi, h4, h3, h2, hpt⟩ := lookupPTE_path m p4 va pt i h
  obtain ⟨m3, m2, m1⟩ := lookupPTE_levels m p4 va pt i h
  obtain ⟨⟨_, _, hp1⟩, hl3, hl2⟩ := trie_level_distinct m p4 hg
  have hne4 : p4 ≠ pt := by
    intro he; subst he; exact hp1 m1
  have hne3 : pageOf (m.pages p4 (PML4 va)) ≠ pt := by
    intro he; subst he; exact (hl3 _ m3).2 m1
  have hne2 : pageOf (m.pages (pageOf (m.pages p4 (PML4 va))) (PDPE va)) ≠ pt := by
    intro he; subst he; exact hl2 _ m2 m1
  have hc4 : ¬(p4 = pt ∧ PML4 va = i) := fun hc => hne4 hc.1
  have hc3 : ¬(pageOf (m.pages p4 (PML4 va)) = pt ∧ PDPE va = i) :=
    fun hc => hne3 hc.1
  have hc2 : ¬(pageOf (m.pages (pageOf (m.pages p4 (PML4 va))) (PDPE va)) = pt
      ∧ PDX va = i) := fun hc => hne2 hc.1
  unfold lookupPTE
  simp only [writeEnt_pages, if_neg hc4]
  simp only [if_neg hc3]
  simp only [if_neg hc2]
  rw [if_pos h4, if_pos h3, if_pos h2, hpt, hi]

/-! ## Claim C9 -/

/-- C9: calling `pml4_destroy` with a null root is a silent no-op — it
returns immediately (hence also does not reach the
`pml4 != base_pml4` assertion, does not free a frame, and leaves the
state unchanged). -/
theorem c9_destroy_null_noop (m : Mem) (base : Nat) :
    pml4_destroy m base none = some m := rfl

/-! ## Claim C10 -/

/-- C10: every mapping operation treats a null root as an empty address
space: for every address and create flag the walk returns absent with
the state unchanged, so `pml4_get_page` returns absent,
`pml4_is_dirty`/`pml4_is_accessed` return false, and
`pml4_set_dirty`/`pml4_set_accessed` change nothing. -/
theorem c10_null_root_empty (m : Mem) (va ua : Nat) (c d a : Bool) :
    pml4e_walk m none va c = (none, m) ∧
    pml4_get_page m none ua = none ∧
    pml4_is_dirty m none va = false ∧
    pml4_is_accessed m none va = false ∧
    pml4_set_dirty m none va d = m ∧
    pml4_set_accessed m none va a = m :=
  ⟨rfl, rfl, rfl, rfl, rfl, rfl⟩

/-! ## Claim C5 -/

/-- C5 (counterexample): a page whose mapping was installed and later
cleared still has a leaf entry slot, so `pml4_is_dirty` reads its Dirty
bit even though the mapping is gone.  At root 100, the leaf entry for
virtual page 0 is `0x40` (Dirty set, Present clear): the page has no
Present mapping (`pml4_get_page` is absent and the Present bit is 0),
yet `pml4_is_dirty` returns true and `pml4_set_dirty` mutates the
entry — refuting the claim that the queries return false and the
mutations are no-ops for every unmapped page. -/
theorem c5_cleared_page_dirty_counterexample :
    pml4_get_page (mChain 0x40) (some 100) 0 = none ∧
    (mChain 0x40).pages 400 0 &&& PTE_P = 0 ∧
    pml4_is_dirty (mChain 0x40) (some 100) 0 = true ∧
    (pml4_set_dirty (mChain 0x40) (some 100) 0 false).pages 400 0 ≠
      (mChain 0x40).pages 400 0 := by
  refine ⟨by decide, by decide, by decide, by decide⟩

/-- C5 (amended): the operations are insensitive only to pages for
which the read-only walk finds *no leaf entry slot at all* (no interior
path): for those, `pml4_is_dirty` and `pml4_is_accessed` return false
and `pml4_set_dirty`/`pml4_set_accessed` leave the state unchanged.
(When a non-Present leaf slot exists — e.g. after `pml4_clear_page` —
the operations act on the slot's bits regardless of Present.) -/
theorem c5_no_slot_noop (m : Mem) (p : Option Nat) (va : Nat) (d a : Bool)
    (h : lookupPTE m p va = none) :
    pml4_is_dirty m p va = false ∧
    pml4_is_accessed m p va = false ∧
    pml4_set_dirty m p va d = m ∧
    pml4_set_accessed m p va a = m := by
  refine ⟨?_, ?_, ?_, ?_⟩
  · unfold pml4_is_dirty
    rw [pml4e_walk_nocreate, h]
  · unfold pml4_is_accessed
    rw [pml4e_walk_nocreate, h]
  · unfold pml4_set_dirty
    rw [pml4e_walk_nocreate, h]
  · unfold pml4_set_accessed
    rw [pml4e_walk_nocreate, h]

/-- C5 witness: the amended theorem applies to a concrete empty root. -/
theorem c5_no_slot_noop_witness :
    lookupPTE mEmpty (some 1) 0 = none ∧
    (pml4_is_dirty mEmpty (some 1) 0 = false ∧
     pml4_is_accessed mEmpty (some 1) 0 = false ∧
     pml4_set_dirty mEmpty (some 1) 0 true = mEmpty ∧
     pml4_set_accessed mEmpty (some 1) 0 true = mEmpty) :=
  ⟨by decide, c5_no_slot_noop mEmpty (some 1) 0 true true (by decide)⟩

/-! ## Claim C6 -/

/-- C6 (code bug, evaluation at the failing input): clearing the Dirty
bit executes `*pte &= ~(uint32_t) PTE_D`; the 32-bit complement
zero-extends to 64 bits, so the AND also clears bits 32–63 of the
entry — the upper half of the physical-frame address field.  At root
100 the leaf entry for page 0 is `0x100000067` (a frame at physical
address `2^32`, Present/Writable/User/Accessed/Dirty).  After
`pml4_set_dirty … false` the entry is `0x27`: the claimed behaviour
(only the Dirty bit changes, i.e. `0x100000027`) is violated, and the
frame address has been corrupted.  The setting direction and the
analogous `pml4_set_accessed` clearing path share the mask pattern. -/
theorem c6_set_dirty_truncates_entry :
    (mChain 0x100000067).pages 400 0 = 0x100000067 ∧
    (pml4_set_dirty (mChain 0x100000067) (some 100) 0 false).pages 400 0 = 0x27 ∧
    (pml4_set_dirty (mChain 0x100000067) (some 100) 0 false).pages 400 0 ≠ 0x100000027 ∧
    (pml4_set_accessed (mChain 0x100000067) (some 100) 0 false).pages 400 0 = 0x47 := by
  refine ⟨by decide, by decide, by decide, by decide⟩

/-! ## Claim C7 -/

/-- `pml4_clear_page` is a no-op when the leaf entry is not Present. -/
theorem clear_page_of_not_present (m : Mem) (p : Option Nat) (va pt i : Nat)
    (h : lookupPTE m p va = some (pt, i))
    (hnp : m.pages pt i &&& PTE_P = 0) :
    pml4_clear_page m p va = m := by
  simp [pml4_clear_page, pml4e_walk_nocreate, h, hnp]

/-- C7: on a Present mapping, `pml4_clear_page` zeroes exactly the
Present bit of the leaf entry (bit 0 becomes 0, every other bit of the
64-bit entry is preserved), touches no other slot and no allocator
state; afterwards `pml4_get_page` returns absent, and a second
`pml4_clear_page` changes nothing (clearing is idempotent, a no-op on
an absent mapping). -/
theorem c7_clear_page_spec (m : Mem) (p4 va pt i : Nat)
    (hg : (trieNodes m p4).Nodup)
    (h : lookupPTE m (some p4) va = some (pt, i))
    (hp : m.pages pt i &&& PTE_P ≠ 0)
    (he : m.pages pt i < 2 ^ 64) :
    Nat.testBit ((pml4_clear_page m (some p4) va).pages pt i) 0 = false ∧
    (∀ k, k ≠ 0 → Nat.testBit ((pml4_clear_page m (some p4) va).pages pt i) k =
      Nat.testBit (m.pages pt i) k) ∧
    (∀ p j, ¬(p = pt ∧ j = i) →
      (pml4_clear_page m (some p4) va).pages p j = m.pages p j) ∧
    (pml4_clear_page m (some p4) va).free = m.free ∧
    pml4_get_page (pml4_clear_page m (some p4) va) (some p4) va = none ∧
    pml4_clear_page (pml4_clear_page m (some p4) va) (some p4) va =
      pml4_clear_page m (some p4) va := by
  have hclear : pml4_clear_page m (some p4) va =
      writeEnt m pt i (m.pages pt i &&& 0xFFFFFFFFFFFFFFFE) := by
    simp [pml4_clear_page, pml4e_walk_nocreate, h, hp]
  have hread : (pml4_clear_page m (some p4) va).pages pt i =
      m.pages pt i &&& 0xFFFFFFFFFFFFFFFE := by
    rw [hclear]; simp
  have hlu : lookupPTE (pml4_clear_page m (some p4) va) (some p4) va = some (pt, i) := by
    rw [hclear]
    exact lookupPTE_write_leaf m p4 va pt i _ hg h
  have hnp : (pml4_clear_page m (some p4) va).pages pt i &&& PTE_P = 0 := by
    rw [hread]; exact clearP_not_present _
  refine ⟨?_, ?_, ?_, ?_, ?_, ?_⟩
  · rw [hread, Nat.testBit_and, testBit_presMask]
    simp
  · intro k hk
    rw [hread, Nat.testBit_and, testBit_presMask]
    rcases Nat.lt_or_ge k 64 with hk64 | hk64
    · have h1 : 1 ≤ k := by omega
      simp [h1, hk64]
    · have hbit : Nat.testBit (m.pages pt i) k = false :=
        Nat.testBit_lt_two_pow
          (lt_of_lt_of_le he (Nat.pow_le_pow_right (by norm_num) hk64))
      simp [hbit, Nat.not_lt.mpr hk64]
  · intro p j hpj
    rw [hclear]
    simp only [writeEnt_pages]
    rw [if_neg hpj]
  · rw [hclear]; rfl
  · simp [pml4_get_page, pml4e_walk_nocreate, hlu, hnp]
  · exact clear_page_of_not_present _ _ va pt i hlu hnp

set_option maxRecDepth 4000 in
/-- C7 witness: the theorem applies to the concrete one-path root 100
with Present leaf entry `77·4096 | 7` for virtual page 0. -/
theorem c7_clear_page_spec_witness :
    ((trieNodes (mChain (77 * 4096 ||| 7)) 100).Nodup ∧
     lookupPTE (mChain (77 * 4096 ||| 7)) (some 100) 0 = some (400, 0)) ∧
    (Nat.testBit ((pml4_clear_page (mChain (77 * 4096 ||| 7)) (some 100) 0).pages 400 0)
      0 = false ∧
     (∀ k, k ≠ 0 → Nat.testBit
       ((pml4_clear_page (mChain (77 * 4096 ||| 7)) (some 100) 0).pages 400 0) k =
       Nat.testBit ((mChain (77 * 4096 ||| 7)).pages 400 0) k) ∧
     (∀ p j, ¬(p = 400 ∧ j = 0) →
       (pml4_clear_page (mChain (77 * 4096 ||| 7)) (some 100) 0).pages p j =
       (mChain (77 * 4096 ||| 7)).pages p j) ∧
     (pml4_clear_page (mChain (77 * 4096 ||| 7)) (some 100) 0).free =
       (mChain (77 * 4096 ||| 7)).free ∧
     pml4_get_page (pml4_clear_page (mChain (77 * 4096 ||| 7)) (some 100) 0)
       (some 100) 0 = none ∧
     pml4_clear_page (pml4_clear_page (mChain (77 * 4096 ||| 7)) (some 100) 0)
       (some 100) 0 = pml4_clear_page (mChain (77 * 4096 ||| 7)) (some 100) 0) :=
  ⟨⟨by decide, by decide⟩,
   c7_clear_page_spec (mChain (77 * 4096 ||| 7)) 100 0 400 0
     (by decide) (by decide) (by decide) (by decide)⟩

/-! ## Destruction frees exactly the owned frames (C2) -/

theorem flatMap_filterMap {α β γ : Type} (l : List α) (g : α → Option β)
    (h : β → List γ) :
    (l.filterMap g).flatMap h =
      l.flatMap (fun x => match g x with | none => [] | some b => h b) := by
  induction l with
  | nil => rfl
  | cons x l ih =>
    cases hg : g x <;> simp [List.filterMap_cons, hg, ih]

theorem ptFrames_congr (m acc : Mem) (pt : Nat) (h : acc.pages = m.pages) :
    ptFrames acc pt = ptFrames m pt := by
  simp only [ptFrames, h]

theorem pt_destroy_fold_spec (m : Mem) (pt : Nat) :
    ∀ (l : List Nat) (acc : Mem), acc.pages = m.pages →
      (l.foldl (fun a i => if a.pages pt i &&& PTE_P ≠ 0 then
          palloc_free_page a (pageOf (a.pages pt i)) else a) acc).pages = m.pages ∧
      (l.foldl (fun a i => if a.pages pt i &&& PTE_P ≠ 0 then
          palloc_free_page a (pageOf (a.pages pt i)) else a) acc).free.Perm
        ((l.filterMap fun i => if m.pages pt i &&& PTE_P ≠ 0 then
          some (pageOf (m.pages pt i)) else none) ++ acc.free) := by
  intro l
  induction l with
  | nil => intro acc h; exact ⟨h, by simp⟩
  | cons x l ih =>
    intro acc h
    rw [List.foldl_cons]
    by_cases hx : m.pages pt x &&& PTE_P ≠ 0
    · rw [show (if acc.pages pt x &&& PTE_P ≠ 0 then
          palloc_free_page acc (pageOf (acc.pages pt x)) else acc) =
          palloc_free_page acc (pageOf (m.pages pt x)) by rw [h]; exact if_pos hx]
      obtain ⟨h1, h2⟩ := ih (palloc_free_page acc (pageOf (m.pages pt x))) h
      refine ⟨h1, ?_⟩
      have hfx : (fun i => if m.pages pt i &&& PTE_P ≠ 0 then
          some (pageOf (m.pages pt i)) else none) x = some (pageOf (m.pages pt x)) := by
        simp [hx]
      simp only [List.filterMap_cons, hfx]
      exact h2.trans List.perm_middle
    · rw [show (if acc.pages pt x &&& PTE_P ≠ 0 then
          palloc_free_page acc (pageOf (acc.pages pt x)) else acc) = acc by
          rw [h]; exact if_neg hx]
      obtain ⟨h1, h2⟩ := ih acc h
      refine ⟨h1, ?_⟩
      have hfx : (fun i => if m.pages pt i &&& PTE_P ≠ 0 then
          some (pageOf (m.pages pt i)) else none) x = none := by
        simp [hx]
      simp only [List.filterMap_cons, hfx]
      exact h2

theorem perm_swap_append {α : Type} (a b c : List α) :
    (a ++ (b ++ c)).Perm (b ++ (a ++ c)) := by
  rw [← List.append_assoc, ← List.append_assoc]
  exact List.Perm.append_right c List.perm_append_comm

theorem pt_destroy_spec (m : Mem) (pt : Nat) :
    (pt_destroy m pt).pages = m.pages ∧
    (pt_destroy m pt).free.Perm (ptFrames m pt ++ m.free) := by
  obtain ⟨h1, h2⟩ := pt_destroy_fold_spec m pt (List.range 512) m rfl
  unfold pt_destroy
  constructor
  · rw [palloc_free_page_pages_fn]
    exact h1
  · rw [palloc_free_page_free]
    simp only [ptFrames, List.cons_append]
    exact List.Perm.cons pt h2

theorem childAt_congr (m acc : Mem) (h : acc.pages = m.pages) :
    childAt acc = childAt m := by
  funext pg i
  simp only [childAt, h]

theorem ptFrames_congr_fun (m acc : Mem) (h : acc.pages = m.pages) :
    ptFrames acc = ptFrames m := by
  funext pt
  exact ptFrames_congr m acc pt h

theorem pdFrames_congr (m acc : Mem) (pd : Nat) (h : acc.pages = m.pages) :
    pdFrames acc pd = pdFrames m pd := by
  simp only [pdFrames, childrenOf, childAt_congr m acc h, ptFrames_congr_fun m acc h]

theorem pdFrames_congr_fun (m acc : Mem) (h : acc.pages = m.pages) :
    pdFrames acc = pdFrames m := by
  funext pd
  exact pdFrames_congr m acc pd h

theorem pdptFrames_congr (m acc : Mem) (pp : Nat) (h : acc.pages = m.pages) :
    pdptFrames acc pp = pdptFrames m pp := by
  simp only [pdptFrames, childrenOf, childAt_congr m acc h, pdFrames_congr_fun m acc h]

theorem pgdir_destroy_fold_spec (m : Mem) (pd : Nat) :
    ∀ (l : List Nat) (acc : Mem), acc.pages = m.pages →
      (l.foldl (fun a i => if a.pages pd i &&& PTE_P ≠ 0 then
          pt_destroy a (pageOf (a.pages pd i)) else a) acc).pages = m.pages ∧
      (l.foldl (fun a i => if a.pages pd i &&& PTE_P ≠ 0 then
          pt_destroy a (pageOf (a.pages pd i)) else a) acc).free.Perm
        ((l.flatMap fun i => if m.pages pd i &&& PTE_P ≠ 0 then
          ptFrames m (pageOf (m.pages pd i)) else []) ++ acc.free) := by
  intro l
  induction l with
  | nil => intro acc h; exact ⟨h, by simp⟩
  | cons x l ih =>
    intro acc h
    rw [List.foldl_cons]
    by_cases hx : m.pages pd x &&& PTE_P ≠ 0
    · rw [show (if acc.pages pd x &&& PTE_P ≠ 0 then
          pt_destroy acc (pageOf (acc.pages pd x)) else acc) =
          pt_destroy acc (pageOf (m.pages pd x)) by rw [h]; exact if_pos hx]
      obtain ⟨hs1, hs2⟩ := pt_destroy_spec acc (pageOf (m.pages pd x))
      obtain ⟨h1, h2⟩ := ih (pt_destroy acc (pageOf (m.pages pd x))) (hs1.trans h)
      refine ⟨h1, ?_⟩
      rw [ptFrames_congr m acc _ h] at hs2
      rw [List.flatMap_cons, if_pos hx, List.append_assoc]
      exact h2.trans ((List.Perm.append_left _ hs2).trans (perm_swap_append _ _ _))
    · rw [show (if acc.pages pd x &&& PTE_P ≠ 0 then
          pt_destroy acc (pageOf (acc.pages pd x)) else acc) = acc by
          rw [h]; exact if_neg hx]
      obtain ⟨h1, h2⟩ := ih acc h
      refine ⟨h1, ?_⟩
      rw [List.flatMap_cons, if_neg hx, List.nil_append]
      exact h2

theorem pgdir_destroy_spec (m : Mem) (pd : Nat) :
    (pgdir_destroy m pd).pages = m.pages ∧
    (pgdir_destroy m pd).free.Perm (pdFrames m pd ++ m.free) := by
  obtain ⟨h1, h2⟩ := pgdir_destroy_fold_spec m pd (List.range 512) m rfl
  unfold pgdir_destroy
  refine ⟨by rw [palloc_free_page_pages_fn]; exact h1, ?_⟩
  have hblk : ((List.range 512).flatMap fun i =>
      if m.pages pd i &&& PTE_P ≠ 0 then ptFrames m (pageOf (m.pages pd i)) else []) =
      (childrenOf m pd).flatMap (ptFrames m) := by
    rw [childrenOf, flatMap_filterMap]
    apply List.flatMap_congr
    intro x _
    by_cases hx : m.pages pd x &&& PTE_P ≠ 0
    · simp [childAt, hx]
    · simp [childAt, hx]
  rw [hblk] at h2
  rw [palloc_free_page_free]
  simp only [pdFrames, List.cons_append]
  exact List.Perm.cons pd h2

theorem pdpe_destroy_fold_spec (m : Mem) (pp : Nat) :
    ∀ (l : List Nat) (acc : Mem), acc.pages = m.pages →
      (l.foldl (fun a i => if a.pages pp i &&& PTE_P ≠ 0 then
          pgdir_destroy a (pageOf (a.pages pp i)) else a) acc).pages = m.pages ∧
      (l.foldl (fun a i => if a.pages pp i &&& PTE_P ≠ 0 then
          pgdir_destroy a (pageOf (a.pages pp i)) else a) acc).free.Perm
        ((l.flatMap fun i => if m.pages pp i &&& PTE_P ≠ 0 then
          pdFrames m (pageOf (m.pages pp i)) else []) ++ acc.free) := by
  intro l
  induction l with
  | nil => intro acc h; exact ⟨h, by simp⟩
  | cons x l ih =>
    intro acc h
    rw [List.foldl_cons]
    by_cases hx : m.pages pp x &&& PTE_P ≠ 0
    · rw [show (if acc.pages pp x &&& PTE_P ≠ 0 then
          pgdir_destroy acc (pageOf (acc.pages pp x)) else acc) =
          pgdir_destroy acc (pageOf (m.pages pp x)) by rw [h]; exact if_pos hx]
      obtain ⟨hs1, hs2⟩ := pgdir_destroy_spec acc (pageOf (m.pages pp x))
      obtain ⟨h1, h2⟩ := ih (pgdir_destroy acc (pageOf (m.pages pp x))) (hs1.trans h)
      refine ⟨h1, ?_⟩
      rw [pdFrames_congr m acc _ h] at hs2
      rw [List.flatMap_cons, if_pos hx, List.append_assoc]
      exact h2.trans ((List.Perm.append_left _ hs2).trans (perm_swap_append _ _ _))
    · rw [show (if acc.pages pp x &&& PTE_P ≠ 0 then
          pgdir_destroy acc (pageOf (acc.pages pp x)) else acc) = acc by
          rw [h]; exact if_neg hx]
      obtain ⟨h1, h2⟩ := ih acc h
      refine ⟨h1, ?_⟩
      rw [List.flatMap_cons, if_neg hx, List.nil_append]
      exact h2

theorem pdpe_destroy_spec (m : Mem) (pp : Nat) :
    (pdpe_destroy m pp).pages = m.pages ∧
    (pdpe_destroy m pp).free.Perm (pdptFrames m pp ++ m.free) := by
  obtain ⟨h1, h2⟩ := pdpe_destroy_fold_spec m pp (List.range 512) m rfl
  unfold pdpe_destroy
  refine ⟨by rw [palloc_free_page_pages_fn]; exact h1, ?_⟩
  have hblk : ((List.range 512).flatMap fun i =>
      if m.pages pp i &&& PTE_P ≠ 0 then pdFrames m (pageOf (m.pages pp i)) else []) =
      (childrenOf m pp).flatMap (pdFrames m) := by
    rw [childrenOf, flatMap_filterMap]
    apply List.flatMap_congr
    intro x _
    by_cases hx : m.pages pp x &&& PTE_P ≠ 0
    · simp [childAt, hx]
    · simp [childAt, hx]
  rw [hblk] at h2
  rw [palloc_free_page_free]
  simp only [pdptFrames, List.cons_append]
  exact List.Perm.cons pp h2

/-! ## Claim C2 -/

/-- C2: destroying the kernel template root is the fatal assertion
(`none`); destroying any other root `p4` succeeds, leaves every page's
contents untouched, and frees exactly the frames the root privately
owns — the interior-node frames and leaf frames reachable through the
private top-level slot 0 plus the root frame itself (`Perm`: each freed
exactly as often as it is owned).  Consequently no frame reachable
through the shared kernel slots (and not aliased into the private
region) is ever freed. -/
theorem c2_destroy_frees_owned (m : Mem) (base p4 : Nat) (hne : p4 ≠ base) :
    pml4_destroy m base (some base) = none ∧
    ∃ m', pml4_destroy m base (some p4) = some m' ∧
      m'.pages = m.pages ∧
      m'.free.Perm (p4 :: (ownedFrames m p4 ++ m.free)) ∧
      ∀ f ∈ sharedFrames m p4, f ∉ ownedFrames m p4 → f ≠ p4 → f ∉ m.free →
        f ∉ m'.free := by
  constructor
  · simp [pml4_destroy]
  · by_cases h0 : m.pages p4 0 &&& PTE_P ≠ 0
    · obtain ⟨h1, h2⟩ := pdpe_destroy_spec m (pageOf (m.pages p4 0))
      have howned : ownedFrames m p4 = pdptFrames m (pageOf (m.pages p4 0)) := by
        simp [ownedFrames, childAt, h0]
      refine ⟨palloc_free_page (pdpe_destroy m (pageOf (m.pages p4 0))) p4,
        ?_, ?_, ?_, ?_⟩
      · simp [pml4_destroy, hne, h0]
      · rw [palloc_free_page_pages_fn]
        exact h1
      · rw [palloc_free_page_free, howned]
        exact List.Perm.cons p4 h2
      · intro f _ hf1 hf2 hf3
        intro hmem
        rw [palloc_free_page_free] at hmem
        rcases List.mem_cons.mp hmem with hm1 | hm1
        · exact hf2 hm1
        · have hm2 := h2.mem_iff.mp hm1
          rw [← howned] at hm2
          rcases List.mem_append.mp hm2 with hm | hm
          · exact hf1 hm
          · exact hf3 hm
    · have howned : ownedFrames m p4 = [] := by
        simp only [not_not] at h0
        simp [ownedFrames, childAt, h0]
      refine ⟨palloc_free_page m p4, ?_, rfl, ?_, ?_⟩
      · simp [pml4_destroy, hne, h0]
      · rw [palloc_free_page_free, howned]
        exact List.Perm.refl _
      · intro f _ hf1 hf2 hf3
        intro hmem
        rw [palloc_free_page_free] at hmem
        rcases List.mem_cons.mp hmem with hm1 | hm1
        · exact hf2 hm1
        · exact hf3 hm1

set_option maxRecDepth 4000 in
/-- C2 witness: the theorem applies to the concrete one-path root 100
(template page 99): destroy succeeds and frees, up to permutation,
exactly the root, the three interior nodes and the mapped leaf frame. -/
theorem c2_destroy_frees_owned_witness :
    (100 : Nat) ≠ 99 ∧
    ownedFrames (mChain (77 * 4096 ||| 7)) 100 = [200, 300, 400, 77] ∧
    (pml4_destroy (mChain (77 * 4096 ||| 7)) 99 (some 100) ≠ none) := by
  have h := c2_destroy_frees_owned (mChain (77 * 4096 ||| 7)) 99 100 (by decide)
  obtain ⟨-, m', hm', -, -, -⟩ := h
  exact ⟨by decide, by decide, by rw [hm']; exact fun hc => Option.noConfusion hc⟩

/-! ## Rollback on allocation failure (C1) -/

theorem mem_trieNodes_self (m : Mem) (p4 : Nat) : p4 ∈ trieNodes m p4 :=
  List.mem_cons_self p4 _

theorem mem_trieNodes_of_level3 (m : Mem) (p4 a : Nat) (h : a ∈ level3 m p4) :
    a ∈ trieNodes m p4 :=
  List.mem_cons.mpr (Or.inr (List.mem_append.mpr (Or.inl h)))

theorem mem_trieNodes_of_level2 (m : Mem) (p4 a : Nat) (h : a ∈ level2 m p4) :
    a ∈ trieNodes m p4 :=
  List.mem_cons.mpr (Or.inr (List.mem_append.mpr (Or.inr (List.mem_append.mpr (Or.inl h)))))

theorem mem_trieNodes_of_level1 (m : Mem) (p4 a : Nat) (h : a ∈ level1 m p4) :
    a ∈ trieNodes m p4 :=
  List.mem_cons.mpr (Or.inr (List.mem_append.mpr (Or.inr (List.mem_append.mpr (Or.inr h)))))

/-- `pgdir_walk` with creation can fail only by allocation failure: the
pool was empty, the entry was absent, and the state is unchanged. -/
theorem pgdir_walk_create_fail (m m₁ : Mem) (pd va : Nat)
    (h : pgdir_walk m (some pd) va true = (none, m₁)) :
    m₁ = m ∧ m.free = [] ∧ m.pages pd (PDX va) &&& PTE_P = 0 := by
  by_cases hp : m.pages pd (PDX va) &&& PTE_P = 0
  · cases hfree : m.free with
    | nil =>
      simp [pgdir_walk, hp, palloc_get_page, hfree] at h
      exact ⟨h.symm, rfl, hp⟩
    | cons np rest =>
      simp [pgdir_walk, hp, palloc_get_page, hfree] at h
  · simp [pgdir_walk, hp] at h

/-! Per-branch evaluation equations for the creating walk. -/

theorem pgdir_walk_eq_pass (m : Mem) (pd va : Nat) (c : Bool)
    (hp : m.pages pd (PDX va) &&& PTE_P ≠ 0) :
    pgdir_walk m (some pd) va c = (some (pageOf (m.pages pd (PDX va)), PTX va), m) := by
  simp only [pgdir_walk, if_pos hp]

theorem pgdir_walk_eq_allocfail (m : Mem) (pd va : Nat)
    (hp : m.pages pd (PDX va) &&& PTE_P = 0) (hfree : m.free = []) :
    pgdir_walk m (some pd) va true = (none, m) := by
  simp [pgdir_walk, hp, palloc_get_page, hfree]

theorem pgdir_walk_eq_create (m : Mem) (pd va np : Nat) (rest : List Nat)
    (hp : m.pages pd (PDX va) &&& PTE_P = 0) (hfree : m.free = np :: rest) :
    pgdir_walk m (some pd) va true =
      (some (pageOf (newEnt np), PTX va),
        writeEnt (zeroPage { pages := m.pages, free := rest } np) pd (PDX va) (newEnt np)) := by
  simp [pgdir_walk, hp, palloc_get_page, hfree]

theorem pdpe_walk_eq_pass (m : Mem) (pp va : Nat) (c : Bool)
    (hp : m.pages pp (PDPE va) &&& PTE_P ≠ 0) :
    pdpe_walk m (some pp) va c =
      pgdir_walk m (some (pageOf (m.pages pp (PDPE va)))) va c := by
  simp only [pdpe_walk, if_pos hp]

theorem pdpe_walk_eq_allocfail (m : Mem) (pp va : Nat)
    (hp : m.pages pp (PDPE va) &&& PTE_P = 0) (hfree : m.free = []) :
    pdpe_walk m (some pp) va true = (none, m) := by
  simp [pdpe_walk, hp, palloc_get_page, hfree]

theorem pdpe_walk_eq_create_some (m m₃ : Mem) (pp va np : Nat) (rest : List Nat)
    (r : Nat × Nat)
    (hp : m.pages pp (PDPE va) &&& PTE_P = 0) (hfree : m.free = np :: rest)
    (hinner : pgdir_walk
      (writeEnt (zeroPage { pages := m.pages, free := rest } np) pp (PDPE va) (newEnt np))
      (some (pageOf ((writeEnt (zeroPage { pages := m.pages, free := rest } np)
        pp (PDPE va) (newEnt np)).pages pp (PDPE va)))) va true = (some r, m₃)) :
    pdpe_walk m (some pp) va true = (some r, m₃) := by
  simp only [pdpe_walk, if_neg (show ¬m.pages pp (PDPE va) &&& PTE_P ≠ 0 by simp [hp]),
    if_pos rfl, palloc_get_page, hfree, if_pos rfl, if_true]
  rw [hinner]

theorem pdpe_walk_eq_create_none (m m₃ : Mem) (pp va np : Nat) (rest : List Nat)
    (hp : m.pages pp (PDPE va) &&& PTE_P = 0) (hfree : m.free = np :: rest)
    (hinner : pgdir_walk
      (writeEnt (zeroPage { pages := m.pages, free := rest } np) pp (PDPE va) (newEnt np))
      (some (pageOf ((writeEnt (zeroPage { pages := m.pages, free := rest } np)
        pp (PDPE va) (newEnt np)).pages pp (PDPE va)))) va true = (none, m₃)) :
    pdpe_walk m (some pp) va true =
      (none, writeEnt (palloc_free_page m₃ (pageOf (m₃.pages pp (PDPE va))))
        pp (PDPE va) 0) := by
  simp only [pdpe_walk, if_neg (show ¬m.pages pp (PDPE va) &&& PTE_P ≠ 0 by simp [hp]),
    if_pos rfl, palloc_get_page, hfree, if_pos rfl, if_true]
  rw [hinner]

theorem pml4e_walk_eq_pass (m : Mem) (p4 va : Nat) (c : Bool)
    (hp : m.pages p4 (PML4 va) &&& PTE_P ≠ 0) :
    pml4e_walk m (some p4) va c =
      pdpe_walk m (some (pageOf (m.pages p4 (PML4 va)))) va c := by
  simp only [pml4e_walk, if_pos hp]

theorem pml4e_walk_eq_allocfail (m : Mem) (p4 va : Nat)
    (hp : m.pages p4 (PML4 va) &&& PTE_P = 0) (hfree : m.free = []) :
    pml4e_walk m (some p4) va true = (none, m) := by
  simp [pml4e_walk, hp, palloc_get_page, hfree]

theorem pml4e_walk_eq_create_some (m m₃ : Mem) (p4 va np : Nat) (rest : List Nat)
    (r : Nat × Nat)
    (hp : m.pages p4 (PML4 va) &&& PTE_P = 0) (hfree : m.free = np :: rest)
    (hinner : pdpe_walk
      (writeEnt (zeroPage { pages := m.pages, free := rest } np) p4 (PML4 va) (newEnt np))
      (some (pageOf ((writeEnt (zeroPage { pages := m.pages, free := rest } np)
        p4 (PML4 va) (newEnt np)).pages p4 (PML4 va)))) va true = (some r, m₃)) :
    pml4e_walk m (some p4) va true = (some r, m₃) := by
  simp only [pml4e_walk, if_neg (show ¬m.pages p4 (PML4 va) &&& PTE_P ≠ 0 by simp [hp]),
    if_pos rfl, palloc_get_page, hfree, if_pos rfl, if_true]
  rw [hinner]

theorem pml4e_walk_eq_create_none (m m₃ : Mem) (p4 va np : Nat) (rest : List Nat)
    (hp : m.pages p4 (PML4 va) &&& PTE_P = 0) (hfree : m.free = np :: rest)
    (hinner : pdpe_walk
      (writeEnt (zeroPage { pages := m.pages, free := rest } np) p4 (PML4 va) (newEnt np))
      (some (pageOf ((writeEnt (zeroPage { pages := m.pages, free := rest } np)
        p4 (PML4 va) (newEnt np)).pages p4 (PML4 va)))) va true = (none, m₃)) :
    pml4e_walk m (some p4) va true =
      (none, writeEnt (palloc_free_page m₃ (pageOf (m₃.pages p4 (PML4 va))))
        p4 (PML4 va) 0) := by
  simp only [pml4e_walk, if_neg (show ¬m.pages p4 (PML4 va) &&& PTE_P ≠ 0 by simp [hp]),
    if_pos rfl, palloc_get_page, hfree, if_pos rfl, if_true]
  rw [hinner]

/-- `pdpe_walk` with creation, on failure, restores the free list
exactly; outside the free frames themselves it modifies at most its own
interior slot for `va`, which was absent before the call and is 0
afterwards. -/
theorem pdpe_walk_create_fail (m m₁ : Mem) (pp va : Nat)
    (hb : ∀ f ∈ m.free, f < 2 ^ 52)
    (hpp : ∀ f ∈ m.free, f ≠ pp)
    (h : pdpe_walk m (some pp) va true = (none, m₁)) :
    m₁.free = m.free ∧
    (∀ pg i, pg ∉ m.free → ¬(pg = pp ∧ i = PDPE va) → m₁.pages pg i = m.pages pg i) ∧
    (m₁.pages pp (PDPE va) = m.pages pp (PDPE va) ∨
      (m₁.pages pp (PDPE va) = 0 ∧ m.pages pp (PDPE va) &&& PTE_P = 0)) := by
  by_cases hp : m.pages pp (PDPE va) &&& PTE_P = 0
  · cases hfree : m.free with
    | nil =>
      rw [pdpe_walk_eq_allocfail m pp va hp hfree] at h
      have hm : m = m₁ := congrArg Prod.snd h
      rw [← hm]
      exact ⟨hfree, fun pg i _ _ => rfl, Or.inl rfl⟩
    | cons np rest =>
      have hmem : np ∈ m.free := by rw [hfree]; exact List.mem_cons_self np rest
      have hnp52 : np < 2 ^ 52 := hb np hmem
      have hnppp : np ≠ pp := hpp np hmem
      have hpage : pageOf ((writeEnt (zeroPage { pages := m.pages, free := rest } np)
          pp (PDPE va) (newEnt np)).pages pp (PDPE va)) = np := by
        simp [pageOf_newEnt np hnp52]
      have hznp : (writeEnt (zeroPage { pages := m.pages, free := rest } np)
          pp (PDPE va) (newEnt np)).pages np (PDX va) &&& PTE_P = 0 := by
        simp [hnppp]
      cases hrest : rest with
      | nil =>
        have hinner : pgdir_walk
            (writeEnt (zeroPage { pages := m.pages, free := rest } np) pp (PDPE va) (newEnt np))
            (some (pageOf ((writeEnt (zeroPage { pages := m.pages, free := rest } np)
              pp (PDPE va) (newEnt np)).pages pp (PDPE va)))) va true =
            (none, writeEnt (zeroPage { pages := m.pages, free := rest } np)
              pp (PDPE va) (newEnt np)) := by
          rw [hpage]
          exact pgdir_walk_eq_allocfail _ np va hznp (by simp [hrest])
        rw [pdpe_walk_eq_create_none m _ pp va np rest hp hfree hinner] at h
        have hm : m₁ = writeEnt (palloc_free_page
            (writeEnt (zeroPage { pages := m.pages, free := rest } np) pp (PDPE va) (newEnt np))
            (pageOf ((writeEnt (zeroPage { pages := m.pages, free := rest } np)
              pp (PDPE va) (newEnt np)).pages pp (PDPE va)))) pp (PDPE va) 0 :=
          (congrArg Prod.snd h).symm
        rw [hpage] at hm
        refine ⟨?_, ?_, ?_⟩
        · rw [hm, hrest]
          simp
        · intro pg i hpg hne
          have hpgnp : pg ≠ np := fun he => hpg (by rw [he]; exact List.mem_cons_self np _)
          rw [hm]
          simp [hne, hpgnp]
        · refine Or.inr ⟨?_, hp⟩
          rw [hm]
          simp
      | cons np2 rest2 =>
        have hinner : pgdir_walk
            (writeEnt (zeroPage { pages := m.pages, free := rest } np) pp (PDPE va) (newEnt np))
            (some (pageOf ((writeEnt (zeroPage { pages := m.pages, free := rest } np)
              pp (PDPE va) (newEnt np)).pages pp (PDPE va)))) va true =
            (some (pageOf (newEnt np2), PTX va),
              writeEnt (zeroPage { pages :=
                (writeEnt (zeroPage { pages := m.pages, free := rest } np)
                  pp (PDPE va) (newEnt np)).pages, free := rest2 } np2) np (PDX va)
                (newEnt np2)) := by
          rw [hpage]
          exact pgdir_walk_eq_create _ np va np2 rest2 hznp (by simp [hrest])
        rw [pdpe_walk_eq_create_some m _ pp va np rest _ hp hfree hinner] at h
        exact absurd (congrArg Prod.fst h) (by simp)
  · rw [pdpe_walk_eq_pass m pp va true hp] at h
    obtain ⟨h1, h2, h3⟩ := pgdir_walk_create_fail m m₁ (pageOf (m.pages pp (PDPE va))) va h
    rw [h1]
    exact ⟨rfl, fun pg i _ _ => rfl, Or.inl rfl⟩

/-! ## Claim C1 -/

/-- Full rollback specification of a failed creating walk; the claim
C1 theorem below and the traversal-preservation proof both use it. -/
theorem pml4e_walk_fail_spec (m m₁ : Mem) (p4 va : Nat)
    (hnd : m.free.Nodup)
    (hb : ∀ f ∈ m.free, f < 2 ^ 52)
    (hdisj : ∀ f ∈ m.free, f ∉ trieNodes m p4)
    (hw : pml4e_walk m (some p4) va true = (none, m₁)) :
    m₁.free = m.free ∧
    (∀ pg, pg ∉ m.free → ∀ i, m.pages pg i &&& PTE_P ≠ 0 →
      m₁.pages pg i = m.pages pg i) ∧
    (∀ pg, pg ∉ m.free → ∀ i, m₁.pages pg i = m.pages pg i ∨ m₁.pages pg i = 0) := by
  have hp4free : p4 ∉ m.free := fun hf => hdisj p4 hf (mem_trieNodes_self m p4)
  by_cases hp4 : m.pages p4 (PML4 va) &&& PTE_P = 0
  · cases hfree : m.free with
    | nil =>
      rw [pml4e_walk_eq_allocfail m p4 va hp4 hfree] at hw
      have hm : m = m₁ := congrArg Prod.snd hw
      rw [← hm]
      exact ⟨hfree, fun pg _ i _ => rfl, fun pg _ i => Or.inl rfl⟩
    | cons np rest =>
      have hmem : np ∈ m.free := by rw [hfree]; exact List.mem_cons_self np rest
      have hnp52 : np < 2 ^ 52 := hb np hmem
      have hnpp4 : np ≠ p4 := by
        intro he
        apply hdisj np hmem
        rw [he]
        exact mem_trieNodes_self m p4
      have hpage : pageOf ((writeEnt (zeroPage { pages := m.pages, free := rest } np)
          p4 (PML4 va) (newEnt np)).pages p4 (PML4 va)) = np := by
        simp [pageOf_newEnt np hnp52]
      rcases hin : pdpe_walk (writeEnt (zeroPage { pages := m.pages, free := rest } np)
          p4 (PML4 va) (newEnt np))
          (some (pageOf ((writeEnt (zeroPage { pages := m.pages, free := rest } np)
            p4 (PML4 va) (newEnt np)).pages p4 (PML4 va)))) va true with ⟨res, m₃⟩
      cases res with
      | some r =>
        rw [pml4e_walk_eq_create_some m m₃ p4 va np rest r hp4 hfree hin] at hw
        exact absurd (congrArg Prod.fst hw) (by simp)
      | none =>
        rw [pml4e_walk_eq_create_none m m₃ p4 va np rest hp4 hfree hin] at hw
        have hm : m₁ = writeEnt (palloc_free_page m₃
            (pageOf (m₃.pages p4 (PML4 va)))) p4 (PML4 va) 0 :=
          (congrArg Prod.snd hw).symm
        rw [hpage] at hin
        have hfr : ∀ f ∈ rest, f ∈ m.free := by
          intro f hf; rw [hfree]; exact List.mem_cons_of_mem np hf
        obtain ⟨hi1, hi2, _⟩ := pdpe_walk_create_fail _ m₃ np va
          (by intro f hf; exact hb f (hfr f (by simpa using hf)))
          (by
            intro f hf
            have hnd' : np ∉ rest := by
              rw [hfree] at hnd
              exact (List.nodup_cons.mp hnd).1
            intro he
            rw [he] at hf
            exact hnd' (by simpa using hf))
          hin
        have hm3free : m₃.free = rest := by
          rw [hi1]; simp
        have hp4rest : p4 ∉ rest := fun hf => hp4free (hfr p4 hf)
        have hslot : m₃.pages p4 (PML4 va) = newEnt np := by
          rw [hi2 p4 (PML4 va) (by simpa using hp4rest) (fun hc => hnpp4 hc.1.symm)]
          simp
        rw [hslot, pageOf_newEnt np hnp52] at hm
        refine ⟨?_, ?_, ?_⟩
        · rw [hm]
          simp [hm3free]
        · intro pg hpg i hpres
          have hpgnp : pg ≠ np := fun he => hpg (by rw [he]; exact List.mem_cons_self np rest)
          have hpgrest : pg ∉ rest := fun hf => hpg (List.mem_cons_of_mem np hf)
          by_cases hc : pg = p4 ∧ i = PML4 va
          · exfalso
            rw [hc.1, hc.2] at hpres
            exact hpres hp4
          · rw [hm]
            simp only [writeEnt_pages, palloc_free_page_pages]
            rw [if_neg hc]
            rw [hi2 pg i (by simpa using hpgrest) (fun hcc => hpgnp hcc.1)]
            simp only [writeEnt_pages, zeroPage_pages]
            rw [if_neg hc, if_neg hpgnp]
        · intro pg hpg i
          have hpgnp : pg ≠ np := fun he => hpg (by rw [he]; exact List.mem_cons_self np rest)
          have hpgrest : pg ∉ rest := fun hf => hpg (List.mem_cons_of_mem np hf)
          by_cases hc : pg = p4 ∧ i = PML4 va
          · refine Or.inr ?_
            rw [hm]
            simp only [writeEnt_pages]
            rw [if_pos hc]
          · refine Or.inl ?_
            rw [hm]
            simp only [writeEnt_pages, palloc_free_page_pages]
            rw [if_neg hc]
            rw [hi2 pg i (by simpa using hpgrest) (fun hcc => hpgnp hcc.1)]
            simp only [writeEnt_pages, zeroPage_pages]
            rw [if_neg hc, if_neg hpgnp]
  · rw [pml4e_walk_eq_pass m p4 va true hp4] at hw
    have hd1trie : pageOf (m.pages p4 (PML4 va)) ∈ trieNodes m p4 :=
      mem_trieNodes_of_level3 m p4 _ (mem_childrenOf m p4 (PML4 va) (PML4_lt va) hp4)
    obtain ⟨hi1, hi2, hi3⟩ := pdpe_walk_create_fail m m₁ (pageOf (m.pages p4 (PML4 va))) va hb
      (fun f hf he => hdisj f hf (by rw [he]; exact hd1trie)) hw
    refine ⟨hi1, ?_, ?_⟩
    · intro pg hpg i hpres
      by_cases hc : pg = pageOf (m.pages p4 (PML4 va)) ∧ i = PDPE va
      · obtain ⟨hc1, hc2⟩ := hc
        subst hc1
        subst hc2
        rcases hi3 with hu | ⟨_, habs⟩
        · exact hu
        · exact absurd habs hpres
      · exact hi2 pg i hpg hc
    · intro pg hpg i
      by_cases hc : pg = pageOf (m.pages p4 (PML4 va)) ∧ i = PDPE va
      · obtain ⟨hc1, hc2⟩ := hc
        subst hc1
        subst hc2
        rcases hi3 with hu | ⟨hz, _⟩
        · exact Or.inl hu
        · exact Or.inr hz
      · exact Or.inl (hi2 pg i hpg hc)

/-- C1: when the creating walk fails (an interior-node allocation
failed), it returns absent and the trie is exactly as found: the free
list is restored verbatim (every interior node allocated during the
call is freed again), no entry of any non-free page that was Present
before the call is modified, and any entry of a non-free page that did
change was re-cleared to zero — i.e. a rolled-back parent slot. -/
theorem c1_walk_rollback (m m₁ : Mem) (p4 va : Nat)
    (hnd : m.free.Nodup)
    (hb : ∀ f ∈ m.free, f < 2 ^ 52)
    (hdisj : ∀ f ∈ m.free, f ∉ trieNodes m p4)
    (hw : pml4e_walk m (some p4) va true = (none, m₁)) :
    m₁.free = m.free ∧
    (∀ pg, pg ∉ m.free → ∀ i, m.pages pg i &&& PTE_P ≠ 0 →
      m₁.pages pg i = m.pages pg i) ∧
    (∀ pg, pg ∉ m.free → ∀ i, m₁.pages pg i = m.pages pg i ∨ m₁.pages pg i = 0) :=
  pml4e_walk_fail_spec m m₁ p4 va hnd hb hdisj hw

set_option maxRecDepth 4000 in
/-- C1 witness: with a single free frame, creating the full path for
virtual page 0 under the empty root 10 fails after one interior
allocation; the theorem applies and the free list is `[42]` again. -/
theorem c1_walk_rollback_witness :
    (pml4e_walk mFree1 (some 10) 0 true).1 = none ∧
    ((pml4e_walk mFree1 (some 10) 0 true).2.free = mFree1.free ∧
     (∀ pg, pg ∉ mFree1.free → ∀ i, mFree1.pages pg i &&& PTE_P ≠ 0 →
       (pml4e_walk mFree1 (some 10) 0 true).2.pages pg i = mFree1.pages pg i) ∧
     (∀ pg, pg ∉ mFree1.free → ∀ i,
       (pml4e_walk mFree1 (some 10) 0 true).2.pages pg i = mFree1.pages pg i ∨
       (pml4e_walk mFree1 (some 10) 0 true).2.pages pg i = 0)) :=
  ⟨by decide,
   c1_walk_rollback mFree1 (pml4e_walk mFree1 (some 10) 0 true).2 10 0
     (by decide) (by decide) (by decide) (Prod.ext (by decide) rfl)⟩

/-! ## Success of the creating walk (C3) -/

theorem lookupPTE_intro (m : Mem) (p4 va : Nat)
    (h4 : m.pages p4 (PML4 va) &&& PTE_P ≠ 0)
    (h3 : m.pages (pageOf (m.pages p4 (PML4 va))) (PDPE va) &&& PTE_P ≠ 0)
    (h2 : m.pages (pageOf (m.pages (pageOf (m.pages p4 (PML4 va))) (PDPE va)))
      (PDX va) &&& PTE_P ≠ 0) :
    lookupPTE m (some p4) va =
      some (pageOf (m.pages (pageOf (m.pages (pageOf (m.pages p4 (PML4 va)))
        (PDPE va))) (PDX va)), PTX va) := by
  simp only [lookupPTE]
  rw [if_pos h4, if_pos h3, if_pos h2]

theorem writeEnt_read_self (m : Mem) (pg i v : Nat) :
    (writeEnt m pg i v).pages pg i = v := by simp

set_option maxRecDepth 16000 in
/-- A successful creating walk returns the slot `(pt, PTX va)` and
materializes only interior path entries on pages distinct from the
returned leaf page: installing any value `v` in that slot afterwards
yields a trie in which the read-only walk for `va` finds exactly the
slot `(pt, PTX va)`. -/
theorem pml4e_walk_create_success (m m₁ : Mem) (p4 va pt i : Nat)
    (hg : goodRoot m p4)
    (hw : pml4e_walk m (some p4) va true = (some (pt, i), m₁)) :
    i = PTX va ∧
    ∀ v, lookupPTE (writeEnt m₁ pt (PTX va) v) (some p4) va = some (pt, PTX va) := by
  obtain ⟨hnd, hndf, hfr⟩ := hg
  obtain ⟨⟨hD3, hD2, hD1⟩, hL3, hL2⟩ := trie_level_distinct m p4 hnd
  by_cases hp4 : m.pages p4 (PML4 va) &&& PTE_P = 0
  · -- top-level slot absent: all three interior nodes are fresh
    cases hfree : m.free with
    | nil =>
      rw [pml4e_walk_eq_allocfail m p4 va hp4 hfree] at hw
      exact absurd (congrArg Prod.fst hw) (by simp)
    | cons np1 rest1 =>
      have hm1f : np1 ∈ m.free := by rw [hfree]; exact List.mem_cons_self np1 rest1
      have h52a : np1 < 2 ^ 52 := (hfr np1 hm1f).2
      have hnp1p4 : np1 ≠ p4 := fun he =>
        (hfr np1 hm1f).1 (by rw [he]; exact mem_trieNodes_self m p4)
      cases hrest1 : rest1 with
      | nil =>
        rw [pml4e_walk_eq_create_none m _ p4 va np1 rest1 hp4 hfree (by
          rw [writeEnt_read_self, pageOf_newEnt np1 h52a]
          exact pdpe_walk_eq_allocfail _ np1 va (by simp [hnp1p4]) (by simp [hrest1]))] at hw
        exact absurd (congrArg Prod.fst hw) (by simp)
      | cons np2 rest2 =>
        have hm2f : np2 ∈ m.free := by
          rw [hfree, hrest1]
          exact List.mem_cons_of_mem np1 (List.mem_cons_self np2 rest2)
        have h52b : np2 < 2 ^ 52 := (hfr np2 hm2f).2
        have hnp2p4 : np2 ≠ p4 := fun he =>
          (hfr np2 hm2f).1 (by rw [he]; exact mem_trieNodes_self m p4)
        have hnp21 : np2 ≠ np1 := by
          rw [hfree, hrest1] at hndf
          intro he
          exact (List.nodup_cons.mp hndf).1 (by rw [← he]; exact List.mem_cons_self np2 rest2)
        cases hrest2 : rest2 with
        | nil =>
          rw [pml4e_walk_eq_create_none m _ p4 va np1 rest1 hp4 hfree (by
            rw [writeEnt_read_self, pageOf_newEnt np1 h52a]
            rw [hrest1]
            exact pdpe_walk_eq_create_none _ _ np1 va np2 rest2 (by simp [hnp1p4])
              (by simp) (by
                rw [writeEnt_read_self, pageOf_newEnt np2 h52b]
                exact pgdir_walk_eq_allocfail _ np2 va (by simp [hnp21, hnp2p4])
                  (by simp [hrest2])))] at hw
          exact absurd (congrArg Prod.fst hw) (by simp)
        | cons np3 rest3 =>
          have hm3f : np3 ∈ m.free := by
            rw [hfree, hrest1, hrest2]
            exact List.mem_cons_of_mem np1 (List.mem_cons_of_mem np2
              (List.mem_cons_self np3 rest3))
          have h52c : np3 < 2 ^ 52 := (hfr np3 hm3f).2
          have hnp3p4 : np3 ≠ p4 := fun he =>
            (hfr np3 hm3f).1 (by rw [he]; exact mem_trieNodes_self m p4)
          have hnp31 : np3 ≠ np1 := by
            rw [hfree, hrest1, hrest2] at hndf
            intro he
            exact (List.nodup_cons.mp hndf).1 (by
              rw [← he]
              exact List.mem_cons_of_mem np2 (List.mem_cons_self np3 rest3))
          have hnp32 : np3 ≠ np2 := by
            rw [hfree, hrest1, hrest2] at hndf
            intro he
            exact (List.nodup_cons.mp (List.nodup_cons.mp hndf).2).1
              (by rw [← he]; exact List.mem_cons_self np3 rest3)
          rw [pml4e_walk_eq_create_some m _ p4 va np1 rest1 _ hp4 hfree (by
            rw [writeEnt_read_self, pageOf_newEnt np1 h52a]
            rw [hrest1]
            exact pdpe_walk_eq_create_some _ _ np1 va np2 rest2 _ (by simp [hnp1p4])
              (by simp) (by
                rw [writeEnt_read_self, pageOf_newEnt np2 h52b]
                rw [hrest2]
                exact pgdir_walk_eq_create _ np2 va np3 rest3 (by simp [hnp21, hnp2p4])
                  (by simp)))] at hw
          rw [Prod.mk.injEq, Option.some.injEq, Prod.mk.injEq] at hw
          obtain ⟨⟨hpt, hi⟩, hw2⟩ := hw
          refine ⟨hi.symm, ?_⟩
          intro v
          rw [← hw2, ← hpt, pageOf_newEnt np3 h52c]
          simp [lookupPTE, pageOf_newEnt np1 h52a, pageOf_newEnt np2 h52b,
            pageOf_newEnt np3 h52c, newEnt_present, hnp1p4, hnp2p4, hnp3p4,
            Ne.symm hnp1p4, Ne.symm hnp2p4, Ne.symm hnp3p4,
            hnp21, hnp31, hnp32, Ne.symm hnp21, Ne.symm hnp31, Ne.symm hnp32]
  · -- top-level slot Present
    have hd1l3 : pageOf (m.pages p4 (PML4 va)) ∈ level3 m p4 :=
      mem_childrenOf m p4 (PML4 va) (PML4_lt va) hp4
    have hp4d1 : p4 ≠ pageOf (m.pages p4 (PML4 va)) :=
      fun he => hD3 (by nth_rewrite 2 [he]; exact hd1l3)
    rw [pml4e_walk_eq_pass m p4 va true hp4] at hw
    by_cases hp3 : m.pages (pageOf (m.pages p4 (PML4 va))) (PDPE va) &&& PTE_P = 0
    · -- level-3 slot absent: page directory and page table are fresh
      cases hfree : m.free with
      | nil =>
        rw [pdpe_walk_eq_allocfail _ _ va hp3 hfree] at hw
        exact absurd (congrArg Prod.fst hw) (by simp)
      | cons np rest =>
        have hmf : np ∈ m.free := by rw [hfree]; exact List.mem_cons_self np rest
        have h52a : np < 2 ^ 52 := (hfr np hmf).2
        have hnpp4 : np ≠ p4 := fun he =>
          (hfr np hmf).1 (by rw [he]; exact mem_trieNodes_self m p4)
        have hnpd1 : np ≠ pageOf (m.pages p4 (PML4 va)) := fun he =>
          (hfr np hmf).1 (by rw [he]; exact mem_trieNodes_of_level3 m p4 _ hd1l3)
        cases hrest : rest with
        | nil =>
          rw [pdpe_walk_eq_create_none _ _ _ va np rest hp3 hfree (by
            rw [writeEnt_read_self, pageOf_newEnt np h52a]
            exact pgdir_walk_eq_allocfail _ np va (by simp [hnpd1]) (by simp [hrest]))] at hw
          exact absurd (congrArg Prod.fst hw) (by simp)
        | cons np2 rest2 =>
          have hm2f : np2 ∈ m.free := by
            rw [hfree, hrest]
            exact List.mem_cons_of_mem np (List.mem_cons_self np2 rest2)
          have h52b : np2 < 2 ^ 52 := (hfr np2 hm2f).2
          have hnp2p4 : np2 ≠ p4 := fun he =>
            (hfr np2 hm2f).1 (by rw [he]; exact mem_trieNodes_self m p4)
          have hnp2d1 : np2 ≠ pageOf (m.pages p4 (PML4 va)) := fun he =>
            (hfr np2 hm2f).1 (by rw [he]; exact mem_trieNodes_of_level3 m p4 _ hd1l3)
          have hnp21 : np2 ≠ np := by
            rw [hfree, hrest] at hndf
            intro he
            exact (List.nodup_cons.mp hndf).1 (by rw [← he]; exact List.mem_cons_self np2 rest2)
          rw [pdpe_walk_eq_create_some _ _ _ va np rest _ hp3 hfree (by
            rw [writeEnt_read_self, pageOf_newEnt np h52a]
            rw [hrest]
            exact pgdir_walk_eq_create _ np va np2 rest2 (by simp [hnpd1]) (by simp))] at hw
          rw [Prod.mk.injEq, Option.some.injEq, Prod.mk.injEq] at hw
          obtain ⟨⟨hpt, hi⟩, hw2⟩ := hw
          refine ⟨hi.symm, ?_⟩
          intro v
          rw [← hw2, ← hpt, pageOf_newEnt np2 h52b]
          simp [lookupPTE, pageOf_newEnt np h52a, pageOf_newEnt np2 h52b,
            newEnt_present, hp4, hnpp4, hnp2p4, hnpd1, hnp2d1, hnp21,
            Ne.symm hnpp4, Ne.symm hnp2p4, Ne.symm hnpd1, Ne.symm hnp2d1, Ne.symm hnp21,
            hp4d1, Ne.symm hp4d1]
    · -- level-3 slot Present
      have hd2l2 : pageOf (m.pages (pageOf (m.pages p4 (PML4 va))) (PDPE va)) ∈ level2 m p4 :=
        mem_level2_of m p4 _ (PDPE va) hd1l3 (PDPE_lt va) hp3
      have hp4d2 : p4 ≠ pageOf (m.pages (pageOf (m.pages p4 (PML4 va))) (PDPE va)) :=
        fun he => hD2 (by nth_rewrite 2 [he]; exact hd2l2)
      have hd1d2 : pageOf (m.pages p4 (PML4 va)) ≠
          pageOf (m.pages (pageOf (m.pages p4 (PML4 va))) (PDPE va)) :=
        fun he => (hL3 _ hd1l3).1 (by nth_rewrite 1 [he]; exact hd2l2)
      rw [pdpe_walk_eq_pass _ _ va true hp3] at hw
      by_cases hp2 : m.pages (pageOf (m.pages (pageOf (m.pages p4 (PML4 va)))
          (PDPE va))) (PDX va) &&& PTE_P = 0
      · -- level-2 slot absent: only the page table is fresh
        cases hfree : m.free with
        | nil =>
          rw [pgdir_walk_eq_allocfail _ _ va hp2 hfree] at hw
          exact absurd (congrArg Prod.fst hw) (by simp)
        | cons np rest =>
          have hmf : np ∈ m.free := by rw [hfree]; exact List.mem_cons_self np rest
          have h52a : np < 2 ^ 52 := (hfr np hmf).2
          have hnpp4 : np ≠ p4 := fun he =>
            (hfr np hmf).1 (by rw [he]; exact mem_trieNodes_self m p4)
          have hnpd1 : np ≠ pageOf (m.pages p4 (PML4 va)) := fun he =>
            (hfr np hmf).1 (by rw [he]; exact mem_trieNodes_of_level3 m p4 _ hd1l3)
          have hnpd2 : np ≠ pageOf (m.pages (pageOf (m.pages p4 (PML4 va))) (PDPE va)) :=
            fun he => (hfr np hmf).1 (by rw [he]; exact mem_trieNodes_of_level2 m p4 _ hd2l2)
          rw [pgdir_walk_eq_create _ _ va np rest hp2 hfree] at hw
          rw [Prod.mk.injEq, Option.some.injEq, Prod.mk.injEq] at hw
          obtain ⟨⟨hpt, hi⟩, hw2⟩ := hw
          refine ⟨hi.symm, ?_⟩
          intro v
          rw [← hw2, ← hpt, pageOf_newEnt np h52a]
          simp [lookupPTE, pageOf_newEnt np h52a, newEnt_present, hp4, hp3,
            hnpp4, hnpd1, hnpd2, Ne.symm hnpp4, Ne.symm hnpd1, Ne.symm hnpd2,
            hp4d1, Ne.symm hp4d1, hp4d2, Ne.symm hp4d2, hd1d2, Ne.symm hd1d2]
      · -- whole path Present: nothing is created
        rw [pgdir_walk_eq_pass _ _ va true hp2] at hw
        rw [Prod.mk.injEq, Option.some.injEq, Prod.mk.injEq] at hw
        obtain ⟨⟨hpt, hi⟩, hw2⟩ := hw
        refine ⟨hi.symm, ?_⟩
        intro v
        rw [← hw2, ← hpt]
        exact lookupPTE_write_leaf m p4 va _ (PTX va) v hnd
          (lookupPTE_intro m p4 va hp4 hp3 hp2)

theorem or_odd_mod_two (x f : Nat) (hf : f % 2 = 1) : (x ||| f) % 2 = 1 := by
  have h : Nat.testBit (x ||| f) 0 = true := by
    rw [Nat.testBit_or]
    have : Nat.testBit f 0 = true := by
      rw [Nat.testBit_to_div_mod]
      simpa using hf
    simp [this]
  rw [Nat.testBit_to_div_mod] at h
  simpa using h

/-! ## Claim C3 -/

/-- C3: on a well-formed non-template root, if `pml4_set_page`
succeeds for a page-aligned user page `va` and a page-aligned frame
`kpage`, then `pml4_get_page` immediately afterwards returns exactly
the kernel-accessible pointer of `kpage`'s frame (page offset 0), for
both values of the writable flag. -/
theorem c3_set_then_get (m : Mem) (p4 va kpage : Nat) (w : Bool)
    (hg : goodRoot m p4)
    (hua : va % PGSIZE = 0)
    (hk : kpage % PGSIZE = 0) (hk64 : kpage < 2 ^ 64)
    (hset : (pml4_set_page m (some p4) va kpage w).1 = true) :
    pml4_get_page (pml4_set_page m (some p4) va kpage w).2 (some p4) va =
      some kpage := by
  rcases hwalk : pml4e_walk m (some p4) va true with ⟨res, m₁⟩
  cases res with
  | none =>
    exfalso
    rw [show pml4_set_page m (some p4) va kpage w = (false, m₁) by
      simp only [pml4_set_page, hwalk]] at hset
    exact Bool.false_ne_true hset
  | some r =>
    rcases r with ⟨pt, i⟩
    obtain ⟨hi, hlu⟩ := pml4e_walk_create_success m m₁ p4 va pt i hg hwalk
    have hF : (if w then PTE_W else 0) < PGSIZE := by
      cases w <;> norm_num [PTE_W, PGSIZE]
    have hflags : PTE_P ||| ((if w then PTE_W else 0) ||| PTE_U) < PGSIZE := by
      cases w <;> decide
    have hfodd : (PTE_P ||| ((if w then PTE_W else 0) ||| PTE_U)) % 2 = 1 := by
      cases w <;> decide
    have hlv : vtop kpage ||| PTE_P ||| (if w then PTE_W else 0) ||| PTE_U =
        kpage ||| (PTE_P ||| ((if w then PTE_W else 0) ||| PTE_U)) := by
      unfold vtop
      rw [Nat.mod_eq_of_lt hk64, Nat.or_assoc, Nat.or_assoc]
    have hset2 : (pml4_set_page m (some p4) va kpage w).2 =
        writeEnt m₁ pt i (vtop kpage ||| PTE_P ||| (if w then PTE_W else 0) ||| PTE_U) := by
      simp only [pml4_set_page, hwalk]
    rw [hset2, hi, hlv]
    have hpres : (kpage ||| (PTE_P ||| ((if w then PTE_W else 0) ||| PTE_U))) &&& PTE_P ≠ 0 := by
      have key : (kpage ||| (PTE_P ||| ((if w then PTE_W else 0) ||| PTE_U))) &&& PTE_P =
          (kpage ||| (PTE_P ||| ((if w then PTE_W else 0) ||| PTE_U))) % 2 :=
        Nat.and_one_is_mod _
      rw [key, or_odd_mod_two _ _ hfodd]
      norm_num
    have haddr : pteAddr (kpage ||| (PTE_P ||| ((if w then PTE_W else 0) ||| PTE_U))) =
        kpage := pteAddr_or_flags kpage _ hk hk64 hflags
    simp only [pml4_get_page, pml4e_walk_nocreate, hlu _, writeEnt_read_self,
      if_pos hpres, haddr, hua, Nat.add_zero]

set_option maxRecDepth 4000 in
/-- C3 witness: on the empty well-formed root 10 with three free
frames, mapping user page `5·4096` to frame `77·4096` succeeds and
`pml4_get_page` returns exactly `77·4096`, for the writable flag true
(the theorem covers both flags). -/
theorem c3_set_then_get_witness :
    (goodRoot mFree3 10 ∧ (pml4_set_page mFree3 (some 10) (5 * 4096) (77 * 4096) true).1 = true) ∧
    pml4_get_page (pml4_set_page mFree3 (some 10) (5 * 4096) (77 * 4096) true).2 (some 10)
      (5 * 4096) = some (77 * 4096) :=
  ⟨⟨⟨by decide, by decide, by decide⟩, by decide⟩,
   c3_set_then_get mFree3 10 (5 * 4096) (77 * 4096) true
     ⟨by decide, by decide, by decide⟩ (by decide) (by decide) (by decide) (by decide)⟩


/-! ## Traversal of the whole trie (C4) -/

theorem all_flatMap {α β : Type} (l : List α) (g : α → List β) (p : β → Bool) :
    (l.flatMap g).all p = l.all fun a => (g a).all p := by
  induction l with
  | nil => rfl
  | cons a t ih => simp only [List.flatMap_cons, List.all_append, List.all_cons, ih]

theorem all_filterMap {α β : Type} (l : List α) (g : α → Option β) (p : β → Bool) :
    (l.filterMap g).all p = l.all fun a => ((g a).map p).getD true := by
  induction l with
  | nil => rfl
  | cons a t ih =>
    cases hg : g a with
    | none => simp [List.filterMap_cons, hg, ih]
    | some b => simp [List.filterMap_cons, hg, ih]

theorem pt_for_each_ground (m : Mem) (f : Nat × Nat → Nat → Bool) (pt i4 i3 i2 : Nat) :
    pt_for_each m f pt i4 i3 i2 = (pt_visits m pt i4 i3 i2).all fun x => f x.1 x.2 := by
  unfold pt_for_each pt_visits
  rw [all_filterMap]
  congr 1
  funext i1
  by_cases h : m.pages pt i1 &&& PTE_P = 0
  · simp [h]
  · simp [h]

theorem pgdir_for_each_ground (m : Mem) (f : Nat × Nat → Nat → Bool) (pd i4 i3 : Nat) :
    pgdir_for_each m f pd i4 i3 = (pgdir_visits m pd i4 i3).all fun x => f x.1 x.2 := by
  unfold pgdir_for_each pgdir_visits
  rw [all_flatMap]
  congr 1
  funext i2
  by_cases h : m.pages pd i2 &&& PTE_P = 0
  · simp [h]
  · simp [h, pt_for_each_ground]

theorem pdp_for_each_ground (m : Mem) (f : Nat × Nat → Nat → Bool) (pp i4 : Nat) :
    pdp_for_each m f pp i4 = (pdp_visits m pp i4).all fun x => f x.1 x.2 := by
  unfold pdp_for_each pdp_visits
  rw [all_flatMap]
  congr 1
  funext i3
  by_cases h : m.pages pp i3 &&& PTE_P = 0
  · simp [h]
  · simp [h, pgdir_for_each_ground]

theorem pml4_for_each_ground (m : Mem) (f : Nat × Nat → Nat → Bool) (p4 : Nat) :
    pml4_for_each m f p4 = (pml4_visits m p4).all fun x => f x.1 x.2 := by
  unfold pml4_for_each pml4_visits
  rw [all_flatMap]
  congr 1
  funext i4
  by_cases h : m.pages p4 i4 &&& PTE_P = 0
  · simp [h]
  · simp [h, pdp_for_each_ground]

theorem vaOf_eq (i4 i3 i2 i1 : Nat) (h3 : i3 < 512) (h2 : i2 < 512) (h1 : i1 < 512) :
    vaOf i4 i3 i2 i1 =
      i4 * 549755813888 + i3 * 1073741824 + i2 * 2097152 + i1 * 4096 := by
  have p12 : (2 : Nat) ^ 12 = 4096 := by norm_num
  have p21 : (2 : Nat) ^ 21 = 2097152 := by norm_num
  have p30 : (2 : Nat) ^ 30 = 1073741824 := by norm_num
  have p39 : (2 : Nat) ^ 39 = 549755813888 := by norm_num
  have e1 : i1 <<< 12 = i1 * 4096 := by rw [Nat.shiftLeft_eq, p12]
  have b1 : i1 <<< 12 < 2 ^ 21 := by rw [e1, p21]; omega
  have b2 : i2 <<< 21 ||| i1 <<< 12 < 2 ^ 30 := by
    rw [shift_lor_eq_add i2 (i1 <<< 12) 21 b1, e1, p21, p30]; omega
  have b3 : i3 <<< 30 ||| (i2 <<< 21 ||| i1 <<< 12) < 2 ^ 39 := by
    rw [shift_lor_eq_add i3 (i2 <<< 21 ||| i1 <<< 12) 30 b2,
      shift_lor_eq_add i2 (i1 <<< 12) 21 b1, e1, p21, p30, p39]
    omega
  unfold vaOf
  rw [Nat.or_assoc, Nat.or_assoc,
    shift_lor_eq_add i4 (i3 <<< 30 ||| (i2 <<< 21 ||| i1 <<< 12)) 39 b3,
    shift_lor_eq_add i3 (i2 <<< 21 ||| i1 <<< 12) 30 b2,
    shift_lor_eq_add i2 (i1 <<< 12) 21 b1, e1, p21, p30, p39]
  omega

theorem PML4_vaOf (i4 i3 i2 i1 : Nat) (h4 : i4 < 512) (h3 : i3 < 512) (h2 : i2 < 512)
    (h1 : i1 < 512) : PML4 (vaOf i4 i3 i2 i1) = i4 := by
  rw [vaOf_eq i4 i3 i2 i1 h3 h2 h1]
  unfold PML4
  rw [Nat.shiftRight_eq_div_pow]
  have p39 : (2 : Nat) ^ 39 = 549755813888 := by norm_num
  rw [p39]
  omega

theorem PDPE_vaOf (i4 i3 i2 i1 : Nat) (h3 : i3 < 512) (h2 : i2 < 512)
    (h1 : i1 < 512) : PDPE (vaOf i4 i3 i2 i1) = i3 := by
  rw [vaOf_eq i4 i3 i2 i1 h3 h2 h1]
  unfold PDPE
  rw [Nat.shiftRight_eq_div_pow]
  have p30 : (2 : Nat) ^ 30 = 1073741824 := by norm_num
  rw [p30]
  omega

theorem PDX_vaOf (i4 i3 i2 i1 : Nat) (h3 : i3 < 512) (h2 : i2 < 512)
    (h1 : i1 < 512) : PDX (vaOf i4 i3 i2 i1) = i2 := by
  rw [vaOf_eq i4 i3 i2 i1 h3 h2 h1]
  unfold PDX
  rw [Nat.shiftRight_eq_div_pow]
  have p21 : (2 : Nat) ^ 21 = 2097152 := by norm_num
  rw [p21]
  omega

theorem PTX_vaOf (i4 i3 i2 i1 : Nat) (h3 : i3 < 512) (h2 : i2 < 512)
    (h1 : i1 < 512) : PTX (vaOf i4 i3 i2 i1) = i1 := by
  rw [vaOf_eq i4 i3 i2 i1 h3 h2 h1]
  unfold PTX
  rw [Nat.shiftRight_eq_div_pow]
  have p12 : (2 : Nat) ^ 12 = 4096 := by norm_num
  rw [p12]
  omega

theorem vaOf_mod_PGSIZE (i4 i3 i2 i1 : Nat) (h3 : i3 < 512) (h2 : i2 < 512)
    (h1 : i1 < 512) : vaOf i4 i3 i2 i1 % PGSIZE = 0 := by
  rw [vaOf_eq i4 i3 i2 i1 h3 h2 h1]
  unfold PGSIZE
  omega

theorem vaOf_lt_vaOf (i4 i3 i2 i1 j4 j3 j2 j1 : Nat)
    (hi3 : i3 < 512) (hi2 : i2 < 512) (hi1 : i1 < 512)
    (hj3 : j3 < 512) (hj2 : j2 < 512) (hj1 : j1 < 512)
    (h : i4 < j4 ∨ i4 = j4 ∧ (i3 < j3 ∨ i3 = j3 ∧ (i2 < j2 ∨ i2 = j2 ∧ i1 < j1))) :
    vaOf i4 i3 i2 i1 < vaOf j4 j3 j2 j1 := by
  rw [vaOf_eq i4 i3 i2 i1 hi3 hi2 hi1, vaOf_eq j4 j3 j2 j1 hj3 hj2 hj1]
  omega

theorem pt_visits_shape (m : Mem) (pt i4 i3 i2 : Nat) (x : (Nat × Nat) × Nat)
    (hx : x ∈ pt_visits m pt i4 i3 i2) :
    ∃ i1, i1 < 512 ∧ m.pages pt i1 &&& PTE_P ≠ 0 ∧ x = ((pt, i1), vaOf i4 i3 i2 i1) := by
  unfold pt_visits at hx
  rcases List.mem_filterMap.mp hx with ⟨i1, hi1, hf⟩
  by_cases h : m.pages pt i1 &&& PTE_P = 0
  · simp [h] at hf
  · rw [if_pos h] at hf
    exact ⟨i1, List.mem_range.mp hi1, h, (Option.some.inj hf).symm⟩

theorem pgdir_visits_shape (m : Mem) (pd i4 i3 : Nat) (x : (Nat × Nat) × Nat)
    (hx : x ∈ pgdir_visits m pd i4 i3) :
    ∃ i2 i1, i2 < 512 ∧ i1 < 512 ∧ m.pages pd i2 &&& PTE_P ≠ 0 ∧
      m.pages (pageOf (m.pages pd i2)) i1 &&& PTE_P ≠ 0 ∧
      x = ((pageOf (m.pages pd i2), i1), vaOf i4 i3 i2 i1) := by
  unfold pgdir_visits at hx
  rcases List.mem_flatMap.mp hx with ⟨i2, hi2, hin⟩
  by_cases h : m.pages pd i2 &&& PTE_P = 0
  · simp [h] at hin
  · rw [if_pos h] at hin
    obtain ⟨i1, hi1, hp, hx1⟩ := pt_visits_shape m _ i4 i3 i2 x hin
    exact ⟨i2, i1, List.mem_range.mp hi2, hi1, h, hp, hx1⟩

theorem pdp_visits_shape (m : Mem) (pp i4 : Nat) (x : (Nat × Nat) × Nat)
    (hx : x ∈ pdp_visits m pp i4) :
    ∃ i3 i2 i1, i3 < 512 ∧ i2 < 512 ∧ i1 < 512 ∧
      m.pages pp i3 &&& PTE_P ≠ 0 ∧
      m.pages (pageOf (m.pages pp i3)) i2 &&& PTE_P ≠ 0 ∧
      m.pages (pageOf (m.pages (pageOf (m.pages pp i3)) i2)) i1 &&& PTE_P ≠ 0 ∧
      x = ((pageOf (m.pages (pageOf (m.pages pp i3)) i2), i1), vaOf i4 i3 i2 i1) := by
  unfold pdp_visits at hx
  rcases List.mem_flatMap.mp hx with ⟨i3, hi3, hin⟩
  by_cases h : m.pages pp i3 &&& PTE_P = 0
  · simp [h] at hin
  · rw [if_pos h] at hin
    obtain ⟨i2, i1, hi2, hi1, hp2, hp1, hx1⟩ := pgdir_visits_shape m _ i4 i3 x hin
    exact ⟨i3, i2, i1, List.mem_range.mp hi3, hi2, hi1, h, hp2, hp1, hx1⟩

theorem pml4_visits_shape (m : Mem) (p4 : Nat) (x : (Nat × Nat) × Nat)
    (hx : x ∈ pml4_visits m p4) :
    ∃ i4 i3 i2 i1, i4 < 512 ∧ i3 < 512 ∧ i2 < 512 ∧ i1 < 512 ∧
      m.pages p4 i4 &&& PTE_P ≠ 0 ∧
      m.pages (pageOf (m.pages p4 i4)) i3 &&& PTE_P ≠ 0 ∧
      m.pages (pageOf (m.pages (pageOf (m.pages p4 i4)) i3)) i2 &&& PTE_P ≠ 0 ∧
      m.pages (pageOf (m.pages (pageOf (m.pages (pageOf (m.pages p4 i4)) i3)) i2)) i1
        &&& PTE_P ≠ 0 ∧
      x = ((pageOf (m.pages (pageOf (m.pages (pageOf (m.pages p4 i4)) i3)) i2), i1),
        vaOf i4 i3 i2 i1) := by
  unfold pml4_visits at hx
  rcases List.mem_flatMap.mp hx with ⟨i4, hi4, hin⟩
  by_cases h : m.pages p4 i4 &&& PTE_P = 0
  · simp [h] at hin
  · rw [if_pos h] at hin
    obtain ⟨i3, i2, i1, hi3, hi2, hi1, hp3, hp2, hp1, hx1⟩ := pdp_visits_shape m _ i4 x hin
    exact ⟨i4, i3, i2, i1, List.mem_range.mp hi4, hi3, hi2, hi1, h, hp3, hp2, hp1, hx1⟩

theorem mem_pml4_visits (m : Mem) (p4 i4 i3 i2 i1 : Nat)
    (h4 : i4 < 512) (h3 : i3 < 512) (h2 : i2 < 512) (h1 : i1 < 512)
    (hp4 : m.pages p4 i4 &&& PTE_P ≠ 0)
    (hp3 : m.pages (pageOf (m.pages p4 i4)) i3 &&& PTE_P ≠ 0)
    (hp2 : m.pages (pageOf (m.pages (pageOf (m.pages p4 i4)) i3)) i2 &&& PTE_P ≠ 0)
    (hp1 : m.pages (pageOf (m.pages (pageOf (m.pages (pageOf (m.pages p4 i4)) i3)) i2)) i1
      &&& PTE_P ≠ 0) :
    ((pageOf (m.pages (pageOf (m.pages (pageOf (m.pages p4 i4)) i3)) i2), i1),
      vaOf i4 i3 i2 i1) ∈ pml4_visits m p4 := by
  unfold pml4_visits
  apply List.mem_flatMap.mpr
  refine ⟨i4, List.mem_range.mpr h4, ?_⟩
  rw [if_pos hp4]
  unfold pdp_visits
  apply List.mem_flatMap.mpr
  refine ⟨i3, List.mem_range.mpr h3, ?_⟩
  rw [if_pos hp3]
  unfold pgdir_visits
  apply List.mem_flatMap.mpr
  refine ⟨i2, List.mem_range.mpr h2, ?_⟩
  rw [if_pos hp2]
  unfold pt_visits
  apply List.mem_filterMap.mpr
  refine ⟨i1, List.mem_range.mpr h1, ?_⟩
  rw [if_pos hp1]

theorem pt_visits_sorted (m : Mem) (pt i4 i3 i2 : Nat) (h3 : i3 < 512) (h2 : i2 < 512) :
    (pt_visits m pt i4 i3 i2).Pairwise fun x y => x.2 < y.2 := by
  unfold pt_visits
  rw [List.pairwise_filterMap]
  apply List.Pairwise.imp_of_mem ?_ (List.pairwise_lt_range 512)
  intro a b ha hb hab x hx y hy
  by_cases hpa : m.pages pt a &&& PTE_P = 0
  · simp [hpa] at hx
  · by_cases hpb : m.pages pt b &&& PTE_P = 0
    · simp [hpb] at hy
    · rw [if_pos hpa, Option.mem_def] at hx
      rw [if_pos hpb, Option.mem_def] at hy
      obtain rfl := Option.some.inj hx
      obtain rfl := Option.some.inj hy
      exact vaOf_lt_vaOf i4 i3 i2 a i4 i3 i2 b h3 h2 (List.mem_range.mp ha)
        h3 h2 (List.mem_range.mp hb)
        (Or.inr ⟨rfl, Or.inr ⟨rfl, Or.inr ⟨rfl, hab⟩⟩⟩)

theorem pgdir_visits_sorted (m : Mem) (pd i4 i3 : Nat) (h3 : i3 < 512) :
    (pgdir_visits m pd i4 i3).Pairwise fun x y => x.2 < y.2 := by
  unfold pgdir_visits
  rw [List.pairwise_flatMap]
  constructor
  · intro i2 hi2
    by_cases h : m.pages pd i2 &&& PTE_P = 0
    · simp [h]
    · rw [if_pos h]
      exact pt_visits_sorted m _ i4 i3 i2 h3 (List.mem_range.mp hi2)
  · apply List.Pairwise.imp_of_mem ?_ (List.pairwise_lt_range 512)
    intro a b ha hb hab x hx y hy
    by_cases hpa : m.pages pd a &&& PTE_P = 0
    · simp [hpa] at hx
    · by_cases hpb : m.pages pd b &&& PTE_P = 0
      · simp [hpb] at hy
      · rw [if_pos hpa] at hx
        rw [if_pos hpb] at hy
        obtain ⟨i1, hi1, hp, rfl⟩ := pt_visits_shape m _ i4 i3 a x hx
        obtain ⟨j1, hj1, hq, rfl⟩ := pt_visits_shape m _ i4 i3 b y hy
        exact vaOf_lt_vaOf i4 i3 a i1 i4 i3 b j1 h3 (List.mem_range.mp ha) hi1
          h3 (List.mem_range.mp hb) hj1
          (Or.inr ⟨rfl, Or.inr ⟨rfl, Or.inl hab⟩⟩)

theorem pdp_visits_sorted (m : Mem) (pp i4 : Nat) :
    (pdp_visits m pp i4).Pairwise fun x y => x.2 < y.2 := by
  unfold pdp_visits
  rw [List.pairwise_flatMap]
  constructor
  · intro i3 hi3
    by_cases h : m.pages pp i3 &&& PTE_P = 0
    · simp [h]
    · rw [if_pos h]
      exact pgdir_visits_sorted m _ i4 i3 (List.mem_range.mp hi3)
  · apply List.Pairwise.imp_of_mem ?_ (List.pairwise_lt_range 512)
    intro a b ha hb hab x hx y hy
    by_cases hpa : m.pages pp a &&& PTE_P = 0
    · simp [hpa] at hx
    · by_cases hpb : m.pages pp b &&& PTE_P = 0
      · simp [hpb] at hy
      · rw [if_pos hpa] at hx
        rw [if_pos hpb] at hy
        obtain ⟨i2, i1, hi2, hi1, hp2, hp1, rfl⟩ := pgdir_visits_shape m _ i4 a x hx
        obtain ⟨j2, j1, hj2, hj1, hq2, hq1, rfl⟩ := pgdir_visits_shape m _ i4 b y hy
        exact vaOf_lt_vaOf i4 a i2 i1 i4 b j2 j1 (List.mem_range.mp ha) hi2 hi1
          (List.mem_range.mp hb) hj2 hj1 (Or.inr ⟨rfl, Or.inl hab⟩)

theorem pml4_visits_sorted (m : Mem) (p4 : Nat) :
    (pml4_visits m p4).Pairwise fun x y => x.2 < y.2 := by
  unfold pml4_visits
  rw [List.pairwise_flatMap]
  constructor
  · intro i4 hi4
    by_cases h : m.pages p4 i4 &&& PTE_P = 0
    · simp [h]
    · rw [if_pos h]
      exact pdp_visits_sorted m _ i4
  · apply List.Pairwise.imp_of_mem ?_ (List.pairwise_lt_range 512)
    intro a b ha hb hab x hx y hy
    by_cases hpa : m.pages p4 a &&& PTE_P = 0
    · simp [hpa] at hx
    · by_cases hpb : m.pages p4 b &&& PTE_P = 0
      · simp [hpb] at hy
      · rw [if_pos hpa] at hx
        rw [if_pos hpb] at hy
        obtain ⟨i3, i2, i1, hi3, hi2, hi1, hp3, hp2, hp1, rfl⟩ := pdp_visits_shape m _ a x hx
        obtain ⟨j3, j2, j1, hj3, hj2, hj1, hq3, hq2, hq1, rfl⟩ := pdp_visits_shape m _ b y hy
        exact vaOf_lt_vaOf a i3 i2 i1 b j3 j2 j1 hi3 hi2 hi1 hj3 hj2 hj1 (Or.inl hab)

theorem pml4_visits_sound (m : Mem) (p4 : Nat) (x : (Nat × Nat) × Nat)
    (hx : x ∈ pml4_visits m p4) :
    m.pages x.1.1 x.1.2 &&& PTE_P ≠ 0 ∧ x.2 % PGSIZE = 0 ∧
      lookupPTE m (some p4) x.2 = some x.1 := by
  obtain ⟨i4, i3, i2, i1, h4, h3, h2, h1, hp4, hp3, hp2, hp1, rfl⟩ :=
    pml4_visits_shape m p4 x hx
  refine ⟨hp1, vaOf_mod_PGSIZE i4 i3 i2 i1 h3 h2 h1, ?_⟩
  simp only [lookupPTE, PML4_vaOf i4 i3 i2 i1 h4 h3 h2 h1,
    PDPE_vaOf i4 i3 i2 i1 h3 h2 h1, PDX_vaOf i4 i3 i2 i1 h3 h2 h1,
    PTX_vaOf i4 i3 i2 i1 h3 h2 h1, if_pos hp4, if_pos hp3, if_pos hp2]

theorem nodup_filterMap_inj {α β : Type} (l : List α) (g : α → Option β)
    (hnd : (l.filterMap g).Nodup) (a b : α) (ha : a ∈ l) (hb : b ∈ l) (x : β)
    (hfa : g a = some x) (hfb : g b = some x) : a = b := by
  induction l with
  | nil => cases ha
  | cons c t ih =>
    rcases List.mem_cons.mp ha with rfl | hat
    · rcases List.mem_cons.mp hb with rfl | hbt
      · rfl
      · exfalso
        rw [List.filterMap_cons, hfa, List.nodup_cons] at hnd
        exact hnd.1 (List.mem_filterMap.mpr ⟨b, hbt, hfb⟩)
    · rcases List.mem_cons.mp hb with rfl | hbt
      · exfalso
        rw [List.filterMap_cons, hfb, List.nodup_cons] at hnd
        exact hnd.1 (List.mem_filterMap.mpr ⟨a, hat, hfa⟩)
      · refine ih ?_ hat hbt
        rw [List.filterMap_cons] at hnd
        cases hgc : g c with
        | none => rw [hgc] at hnd; exact hnd
        | some y => rw [hgc] at hnd; exact (List.nodup_cons.mp hnd).2

theorem nodup_flatMap_cross {α β : Type} (l : List α) (g : α → List β)
    (hnd : (l.flatMap g).Nodup) (a b : α) (ha : a ∈ l) (hb : b ∈ l) (x : β)
    (hxa : x ∈ g a) (hxb : x ∈ g b) : a = b := by
  induction l with
  | nil => cases ha
  | cons c t ih =>
    rw [List.flatMap_cons, List.nodup_append] at hnd
    obtain ⟨hgc, ht, hdisj⟩ := hnd
    rcases List.mem_cons.mp ha with rfl | hat
    · rcases List.mem_cons.mp hb with rfl | hbt
      · rfl
      · exact absurd (List.mem_flatMap.mpr ⟨b, hbt, hxb⟩) (hdisj hxa)
    · rcases List.mem_cons.mp hb with rfl | hbt
      · exact absurd (List.mem_flatMap.mpr ⟨a, hat, hxa⟩) (hdisj hxb)
      · exact ih ht hat hbt

theorem nodup_flatMap_chunk {α β : Type} (l : List α) (g : α → List β)
    (hnd : (l.flatMap g).Nodup) (a : α) (ha : a ∈ l) : (g a).Nodup := by
  induction l with
  | nil => cases ha
  | cons c t ih =>
    rw [List.flatMap_cons, List.nodup_append] at hnd
    rcases List.mem_cons.mp ha with rfl | hat
    · exact hnd.1
    · exact ih hnd.2.1 hat

theorem trie_levels_nodup (m : Mem) (p4 : Nat) (hnd : (trieNodes m p4).Nodup) :
    (level3 m p4).Nodup ∧ (level2 m p4).Nodup ∧ (level1 m p4).Nodup := by
  unfold trieNodes at hnd
  rw [List.nodup_cons] at hnd
  obtain ⟨_, h⟩ := hnd
  rw [List.nodup_append] at h
  obtain ⟨h3, hrest, _⟩ := h
  rw [List.nodup_append] at hrest
  exact ⟨h3, hrest.1, hrest.2.1⟩

theorem pml4_visits_entry_unique (m : Mem) (p4 : Nat)
    (hnd : (trieNodes m p4).Nodup)
    (x : (Nat × Nat) × Nat) (hx : x ∈ pml4_visits m p4)
    (y : (Nat × Nat) × Nat) (hy : y ∈ pml4_visits m p4)
    (hfst : x.1 = y.1) : x = y := by
  obtain ⟨h3n, h2n, h1n⟩ := trie_levels_nodup m p4 hnd
  obtain ⟨a4, a3, a2, a1, ha4, ha3, ha2, ha1, hpa4, hpa3, hpa2, hpa1, rfl⟩ :=
    pml4_visits_shape m p4 x hx
  obtain ⟨b4, b3, b2, b1, hb4, hb3, hb2, hb1, hpb4, hpb3, hpb2, hpb1, rfl⟩ :=
    pml4_visits_shape m p4 y hy
  set d1a := pageOf (m.pages p4 a4)
  set d2a := pageOf (m.pages d1a a3)
  set pta := pageOf (m.pages d2a a2)
  set d1b := pageOf (m.pages p4 b4)
  set d2b := pageOf (m.pages d1b b3)
  set ptb := pageOf (m.pages d2b b2)
  have hpt : pta = ptb := congrArg Prod.fst hfst
  have h11 : a1 = b1 := congrArg Prod.snd hfst
  have m3a : d1a ∈ level3 m p4 := mem_childrenOf m p4 a4 ha4 hpa4
  have m2a : d2a ∈ level2 m p4 := mem_level2_of m p4 d1a a3 m3a ha3 hpa3
  have m3b : d1b ∈ level3 m p4 := mem_childrenOf m p4 b4 hb4 hpb4
  have m2b : d2b ∈ level2 m p4 := mem_level2_of m p4 d1b b3 m3b hb3 hpb3
  have h1nk : ((level2 m p4).flatMap (childrenOf m)).Nodup := h1n
  have h2nk : ((level3 m p4).flatMap (childrenOf m)).Nodup := h2n
  have hca : childAt m d2a a2 = some pta := by unfold childAt; rw [if_pos hpa2]
  have hcb : childAt m d2b b2 = some ptb := by unfold childAt; rw [if_pos hpb2]
  have hmca : pta ∈ childrenOf m d2a :=
    List.mem_filterMap.mpr ⟨a2, List.mem_range.mpr ha2, hca⟩
  have hmcb : pta ∈ childrenOf m d2b := by
    rw [hpt]
    exact List.mem_filterMap.mpr ⟨b2, List.mem_range.mpr hb2, hcb⟩
  have hd2 : d2a = d2b := nodup_flatMap_cross _ _ h1nk d2a d2b m2a m2b pta hmca hmcb
  have ha2b2 : a2 = b2 := by
    have hcn : ((List.range 512).filterMap (childAt m d2a)).Nodup :=
      nodup_flatMap_chunk _ _ h1nk d2a m2a
    refine nodup_filterMap_inj _ _ hcn a2 b2 (List.mem_range.mpr ha2)
      (List.mem_range.mpr hb2) pta hca ?_
    rw [← hd2] at hcb
    rw [hcb, hpt]
  have hca3 : childAt m d1a a3 = some d2a := by unfold childAt; rw [if_pos hpa3]
  have hcb3 : childAt m d1b b3 = some d2b := by unfold childAt; rw [if_pos hpb3]
  have hm2a : d2a ∈ childrenOf m d1a :=
    List.mem_filterMap.mpr ⟨a3, List.mem_range.mpr ha3, hca3⟩
  have hm2b : d2a ∈ childrenOf m d1b := by
    rw [hd2]
    exact List.mem_filterMap.mpr ⟨b3, List.mem_range.mpr hb3, hcb3⟩
  have hd1 : d1a = d1b := nodup_flatMap_cross _ _ h2nk d1a d1b m3a m3b d2a hm2a hm2b
  have ha3b3 : a3 = b3 := by
    have hcn : ((List.range 512).filterMap (childAt m d1a)).Nodup :=
      nodup_flatMap_chunk _ _ h2nk d1a m3a
    refine nodup_filterMap_inj _ _ hcn a3 b3 (List.mem_range.mpr ha3)
      (List.mem_range.mpr hb3) d2a hca3 ?_
    rw [← hd1] at hcb3
    rw [hcb3, hd2]
  have hca4 : childAt m p4 a4 = some d1a := by unfold childAt; rw [if_pos hpa4]
  have hcb4 : childAt m p4 b4 = some d1b := by unfold childAt; rw [if_pos hpb4]
  have ha4b4 : a4 = b4 := by
    have h3nk : ((List.range 512).filterMap (childAt m p4)).Nodup := h3n
    refine nodup_filterMap_inj _ _ h3nk a4 b4 (List.mem_range.mpr ha4)
      (List.mem_range.mpr hb4) d1a hca4 ?_
    rw [hcb4, hd1]
  rw [hpt, h11, ha4b4, ha3b3, ha2b2]

/-- C4: the traversal is exact.  (1) `pml4_for_each` evaluates the
visitor on precisely the trace `pml4_visits`, in loop order.  (2) The
trace is in strictly ascending virtual-address order.  (3) Every visit
is of a Present leaf entry together with exactly the page-aligned
virtual address whose translation that entry holds: the read-only walk
at the passed address locates the passed slot.  (4) Conversely, every
Present leaf entry the read-only walk can reach — kernel region
included — is visited with its reconstructed address.  (5) On a
well-formed trie no leaf entry is visited at two different addresses,
so with (2) every Present leaf entry is visited exactly once. -/
theorem c4_for_each_exact (m : Mem) (f : Nat × Nat → Nat → Bool) (p4 : Nat) :
    (pml4_for_each m f p4 = (pml4_visits m p4).all fun x => f x.1 x.2) ∧
    (pml4_visits m p4).Pairwise (fun x y => x.2 < y.2) ∧
    (∀ x ∈ pml4_visits m p4, m.pages x.1.1 x.1.2 &&& PTE_P ≠ 0 ∧
      x.2 % PGSIZE = 0 ∧ lookupPTE m (some p4) x.2 = some x.1) ∧
    (∀ va pt i, lookupPTE m (some p4) va = some (pt, i) →
      m.pages pt i &&& PTE_P ≠ 0 →
      ((pt, i), vaOf (PML4 va) (PDPE va) (PDX va) (PTX va)) ∈ pml4_visits m p4) ∧
    ((trieNodes m p4).Nodup →
      ∀ x ∈ pml4_visits m p4, ∀ y ∈ pml4_visits m p4, x.1 = y.1 → x = y) := by
  refine ⟨pml4_for_each_ground m f p4, pml4_visits_sorted m p4, ?_, ?_, ?_⟩
  · intro x hx
    exact pml4_visits_sound m p4 x hx
  · intro va pt i hl hp
    obtain ⟨hi, h4, h3, h2, hpt⟩ := lookupPTE_path m p4 va pt i hl
    subst hi
    subst hpt
    exact mem_pml4_visits m p4 (PML4 va) (PDPE va) (PDX va) (PTX va)
      (PML4_lt va) (PDPE_lt va) (PDX_lt va) (PTX_lt va) h4 h3 h2 hp
  · intro hnd x hx y hy hfst
    exact pml4_visits_entry_unique m p4 hnd x hx y hy hfst

/-! ## Leaf preservation across the creating walk (C8) -/

theorem leafEntryAt_decomp (m : Mem) (p4 va : Nat) :
    leafEntryAt m (some p4) va =
      if m.pages p4 (PML4 va) &&& PTE_P ≠ 0 then
        leafFromPDPT m (pageOf (m.pages p4 (PML4 va))) va
      else none := by
  by_cases h4 : m.pages p4 (PML4 va) &&& PTE_P = 0
  · simp [leafEntryAt, lookupPTE, h4]
  · by_cases h3 : m.pages (pageOf (m.pages p4 (PML4 va))) (PDPE va) &&& PTE_P = 0
    · simp [leafEntryAt, lookupPTE, leafFromPDPT, h4, h3]
    · by_cases h2 : m.pages (pageOf (m.pages (pageOf (m.pages p4 (PML4 va)))
          (PDPE va))) (PDX va) &&& PTE_P = 0
      · simp [leafEntryAt, lookupPTE, leafFromPDPT, leafFromPD, h4, h3, h2]
      · simp [leafEntryAt, lookupPTE, leafFromPDPT, leafFromPD, leafFromPT, h4, h3, h2]

theorem leafFromPT_dead (m : Mem) (pt va : Nat) (h : deadPT m pt) :
    leafFromPT m pt va = none := by
  unfold leafFromPT
  rw [if_neg (not_not_intro (h (PTX va)))]

theorem leafFromPD_dead (m : Mem) (pd va : Nat) (h : deadPD m pd) :
    leafFromPD m pd va = none := by
  unfold leafFromPD
  by_cases hp : m.pages pd (PDX va) &&& PTE_P = 0
  · rw [if_neg (not_not_intro hp)]
  · rw [if_pos hp]
    rcases h (PDX va) with h0 | hdt
    · exact absurd h0 hp
    · exact leafFromPT_dead m _ va hdt

theorem leafFromPDPT_dead (m : Mem) (pp va : Nat) (h : deadPDPT m pp) :
    leafFromPDPT m pp va = none := by
  unfold leafFromPDPT
  by_cases hp : m.pages pp (PDPE va) &&& PTE_P = 0
  · rw [if_neg (not_not_intro hp)]
  · rw [if_pos hp]
    rcases h (PDPE va) with h0 | hdd
    · exact absurd h0 hp
    · exact leafFromPD_dead m _ va hdd

theorem leafFromPT_congr (m m₁ : Mem) (p4 pt w : Nat)
    (hm : pt ∈ level1 m p4)
    (H1 : ∀ q ∈ level1 m p4, m₁.pages q (PTX w) = m.pages q (PTX w) ∨
      (m.pages q (PTX w) &&& PTE_P = 0 ∧ m₁.pages q (PTX w) &&& PTE_P = 0)) :
    leafFromPT m₁ pt w = leafFromPT m pt w := by
  unfold leafFromPT
  rcases H1 pt hm with he | ⟨h0, h1⟩
  · rw [he]
  · rw [if_neg (not_not_intro h0), if_neg (not_not_intro h1)]

theorem leafFromPD_congr (m m₁ : Mem) (p4 pd w : Nat)
    (hm : pd ∈ level2 m p4)
    (H2 : ∀ q ∈ level2 m p4, m₁.pages q (PDX w) = m.pages q (PDX w) ∨
      (m.pages q (PDX w) &&& PTE_P = 0 ∧
        (m₁.pages q (PDX w) &&& PTE_P = 0 ∨ deadPT m₁ (pageOf (m₁.pages q (PDX w))))))
    (H1 : ∀ q ∈ level1 m p4, m₁.pages q (PTX w) = m.pages q (PTX w) ∨
      (m.pages q (PTX w) &&& PTE_P = 0 ∧ m₁.pages q (PTX w) &&& PTE_P = 0)) :
    leafFromPD m₁ pd w = leafFromPD m pd w := by
  unfold leafFromPD
  rcases H2 pd hm with he | ⟨h0, hd⟩
  · rw [he]
    by_cases hp : m.pages pd (PDX w) &&& PTE_P = 0
    · rw [if_neg (not_not_intro hp), if_neg (not_not_intro hp)]
    · rw [if_pos hp, if_pos hp]
      exact leafFromPT_congr m m₁ p4 _ w (mem_level1_of m p4 pd (PDX w) hm (PDX_lt w) hp) H1
  · rw [if_neg (not_not_intro h0)]
    by_cases h1p : m₁.pages pd (PDX w) &&& PTE_P = 0
    · rw [if_neg (not_not_intro h1p)]
    · rw [if_pos h1p]
      rcases hd with h1z | hdd
      · exact absurd h1z h1p
      · exact leafFromPT_dead m₁ _ w hdd

theorem leafFromPDPT_congr (m m₁ : Mem) (p4 pp w : Nat)
    (hm : pp ∈ level3 m p4)
    (H3 : ∀ q ∈ level3 m p4, m₁.pages q (PDPE w) = m.pages q (PDPE w) ∨
      (m.pages q (PDPE w) &&& PTE_P = 0 ∧
        (m₁.pages q (PDPE w) &&& PTE_P = 0 ∨ deadPD m₁ (pageOf (m₁.pages q (PDPE w))))))
    (H2 : ∀ q ∈ level2 m p4, m₁.pages q (PDX w) = m.pages q (PDX w) ∨
      (m.pages q (PDX w) &&& PTE_P = 0 ∧
        (m₁.pages q (PDX w) &&& PTE_P = 0 ∨ deadPT m₁ (pageOf (m₁.pages q (PDX w))))))
    (H1 : ∀ q ∈ level1 m p4, m₁.pages q (PTX w) = m.pages q (PTX w) ∨
      (m.pages q (PTX w) &&& PTE_P = 0 ∧ m₁.pages q (PTX w) &&& PTE_P = 0)) :
    leafFromPDPT m₁ pp w = leafFromPDPT m pp w := by
  unfold leafFromPDPT
  rcases H3 pp hm with he | ⟨h0, hd⟩
  · rw [he]
    by_cases hp : m.pages pp (PDPE w) &&& PTE_P = 0
    · rw [if_neg (not_not_intro hp), if_neg (not_not_intro hp)]
    · rw [if_pos hp, if_pos hp]
      exact leafFromPD_congr m m₁ p4 _ w
        (mem_level2_of m p4 pp (PDPE w) hm (PDPE_lt w) hp) H2 H1
  · rw [if_neg (not_not_intro h0)]
    by_cases h1p : m₁.pages pp (PDPE w) &&& PTE_P = 0
    · rw [if_neg (not_not_intro h1p)]
    · rw [if_pos h1p]
      rcases hd with h1z | hdd
      · exact absurd h1z h1p
      · exact leafFromPD_dead m₁ _ w hdd

theorem leafEntryAt_congr (m m₁ : Mem) (p4 w : Nat)
    (H4 : m₁.pages p4 (PML4 w) = m.pages p4 (PML4 w) ∨
      (m.pages p4 (PML4 w) &&& PTE_P = 0 ∧
        (m₁.pages p4 (PML4 w) &&& PTE_P = 0 ∨
          deadPDPT m₁ (pageOf (m₁.pages p4 (PML4 w))))))
    (H3 : ∀ q ∈ level3 m p4, m₁.pages q (PDPE w) = m.pages q (PDPE w) ∨
      (m.pages q (PDPE w) &&& PTE_P = 0 ∧
        (m₁.pages q (PDPE w) &&& PTE_P = 0 ∨ deadPD m₁ (pageOf (m₁.pages q (PDPE w))))))
    (H2 : ∀ q ∈ level2 m p4, m₁.pages q (PDX w) = m.pages q (PDX w) ∨
      (m.pages q (PDX w) &&& PTE_P = 0 ∧
        (m₁.pages q (PDX w) &&& PTE_P = 0 ∨ deadPT m₁ (pageOf (m₁.pages q (PDX w))))))
    (H1 : ∀ q ∈ level1 m p4, m₁.pages q (PTX w) = m.pages q (PTX w) ∨
      (m.pages q (PTX w) &&& PTE_P = 0 ∧ m₁.pages q (PTX w) &&& PTE_P = 0)) :
    leafEntryAt m₁ (some p4) w = leafEntryAt m (some p4) w := by
  rw [leafEntryAt_decomp, leafEntryAt_decomp]
  rcases H4 with he | ⟨h0, hd⟩
  · rw [he]
    by_cases hp : m.pages p4 (PML4 w) &&& PTE_P = 0
    · rw [if_neg (not_not_intro hp), if_neg (not_not_intro hp)]
    · rw [if_pos hp, if_pos hp]
      exact leafFromPDPT_congr m m₁ p4 _ w
        (mem_childrenOf m p4 (PML4 w) (PML4_lt w) hp) H3 H2 H1
  · rw [if_neg (not_not_intro h0)]
    by_cases h1p : m₁.pages p4 (PML4 w) &&& PTE_P = 0
    · rw [if_neg (not_not_intro h1p)]
    · rw [if_pos h1p]
      rcases hd with h1z | hdd
      · exact absurd h1z h1p
      · exact leafFromPDPT_dead m₁ _ w hdd

theorem slot_congr_of_keep (m m₁ : Mem) (pg i : Nat)
    (hpres : ∀ j, m.pages pg j &&& PTE_P ≠ 0 → m₁.pages pg j = m.pages pg j)
    (hch : ∀ j, m₁.pages pg j = m.pages pg j ∨ m₁.pages pg j = 0) :
    m₁.pages pg i = m.pages pg i ∨
      (m.pages pg i &&& PTE_P = 0 ∧ m₁.pages pg i &&& PTE_P = 0) := by
  rcases hch i with he | h0
  · exact Or.inl he
  · by_cases hp : m.pages pg i &&& PTE_P = 0
    · exact Or.inr ⟨hp, by rw [h0]; exact Nat.zero_and _⟩
    · exact Or.inl (hpres i hp)

theorem and_seven_of_add (a : Nat) : (a * 8 + 7) &&& 7 = 7 := by
  apply Nat.eq_of_testBit_eq
  intro j
  rw [Nat.testBit_and]
  have h := testBit_mul_pow_add a 7 3 j (by norm_num)
  rw [show (2 : Nat) ^ 3 = 8 from by norm_num] at h
  rw [h]
  by_cases hj : j < 3
  · rw [if_pos hj]
    simp
  · rw [if_neg hj]
    have h7 : Nat.testBit 7 j = false :=
      Nat.testBit_lt_two_pow (show 7 < 2 ^ j from lt_of_lt_of_le
        (show (7 : Nat) < 2 ^ 3 from by norm_num)
        (Nat.pow_le_pow_right (by norm_num) (by omega)))
    simp [h7]

theorem newEnt_low_flags (np : Nat) (h : np < 2 ^ 52) :
    newEnt np &&& (PTE_U ||| PTE_W ||| PTE_P) = PTE_U ||| PTE_W ||| PTE_P := by
  have hmask : (PTE_U ||| PTE_W ||| PTE_P : Nat) = 7 := by decide
  have hsplit : newEnt np = np * 512 * 8 + 7 := by
    rw [newEnt_eq np h, show np * PGSIZE = np <<< 12 from by
      rw [Nat.shiftLeft_eq]; norm_num [PGSIZE],
      shift_lor_eq_add np 7 12 (by norm_num),
      show (2 : Nat) ^ 12 = 4096 from by norm_num,
      show np * 512 * 8 = np * 4096 from by ring]
  rw [hmask, hsplit]
  exact and_seven_of_add (np * 512)

set_option maxRecDepth 16000 in
/-- A successful creating walk installs no leaf mapping: the Present
leaf entries visible from the root are identical before and after, the
returned slot still holds its old value (or 0 on a freshly zeroed page
table), and every entry it changed on a retained page is a fresh
interior-node entry. -/
theorem pml4e_walk_create_leaf_spec (m m₁ : Mem) (p4 va pt i : Nat)
    (hg : goodRoot m p4)
    (hw : pml4e_walk m (some p4) va true = (some (pt, i), m₁)) :
    (∀ w, leafEntryAt m₁ (some p4) w = leafEntryAt m (some p4) w) ∧
    (m₁.pages pt i = m.pages pt i ∨ m₁.pages pt i = 0) ∧
    (∀ pg, pg ∉ m.free → ∀ j, m₁.pages pg j ≠ m.pages pg j →
      ∃ np ∈ m.free, m₁.pages pg j = newEnt np) := by
  obtain ⟨hnd, hndf, hfr⟩ := hg
  obtain ⟨⟨hD3, hD2, hD1⟩, hL3, hL2⟩ := trie_level_distinct m p4 hnd
  by_cases hp4 : m.pages p4 (PML4 va) &&& PTE_P = 0
  · -- top-level slot absent: all three interior nodes are fresh
    cases hfree : m.free with
    | nil =>
      rw [pml4e_walk_eq_allocfail m p4 va hp4 hfree] at hw
      exact absurd (congrArg Prod.fst hw) (by simp)
    | cons np1 rest1 =>
      have hm1f : np1 ∈ m.free := by rw [hfree]; exact List.mem_cons_self np1 rest1
      have h52a : np1 < 2 ^ 52 := (hfr np1 hm1f).2
      have hnp1p4 : np1 ≠ p4 := fun he =>
        (hfr np1 hm1f).1 (by rw [he]; exact mem_trieNodes_self m p4)
      cases hrest1 : rest1 with
      | nil =>
        rw [pml4e_walk_eq_create_none m _ p4 va np1 rest1 hp4 hfree (by
          rw [writeEnt_read_self, pageOf_newEnt np1 h52a]
          exact pdpe_walk_eq_allocfail _ np1 va (by simp [hnp1p4]) (by simp [hrest1]))] at hw
        exact absurd (congrArg Prod.fst hw) (by simp)
      | cons np2 rest2 =>
        have hm2f : np2 ∈ m.free := by
          rw [hfree, hrest1]
          exact List.mem_cons_of_mem np1 (List.mem_cons_self np2 rest2)
        have h52b : np2 < 2 ^ 52 := (hfr np2 hm2f).2
        have hnp2p4 : np2 ≠ p4 := fun he =>
          (hfr np2 hm2f).1 (by rw [he]; exact mem_trieNodes_self m p4)
        have hnp21 : np2 ≠ np1 := by
          rw [hfree, hrest1] at hndf
          intro he
          exact (List.nodup_cons.mp hndf).1 (by rw [← he]; exact List.mem_cons_self np2 rest2)
        cases hrest2 : rest2 with
        | nil =>
          rw [pml4e_walk_eq_create_none m _ p4 va np1 rest1 hp4 hfree (by
            rw [writeEnt_read_self, pageOf_newEnt np1 h52a]
            rw [hrest1]
            exact pdpe_walk_eq_create_none _ _ np1 va np2 rest2 (by simp [hnp1p4])
              (by simp) (by
                rw [writeEnt_read_self, pageOf_newEnt np2 h52b]
                exact pgdir_walk_eq_allocfail _ np2 va (by simp [hnp21, hnp2p4])
                  (by simp [hrest2])))] at hw
          exact absurd (congrArg Prod.fst hw) (by simp)
        | cons np3 rest3 =>
          have hm3f : np3 ∈ m.free := by
            rw [hfree, hrest1, hrest2]
            exact List.mem_cons_of_mem np1 (List.mem_cons_of_mem np2
              (List.mem_cons_self np3 rest3))
          have h52c : np3 < 2 ^ 52 := (hfr np3 hm3f).2
          have hnp3p4 : np3 ≠ p4 := fun he =>
            (hfr np3 hm3f).1 (by rw [he]; exact mem_trieNodes_self m p4)
          have hnp31 : np3 ≠ np1 := by
            rw [hfree, hrest1, hrest2] at hndf
            intro he
            exact (List.nodup_cons.mp hndf).1 (by
              rw [← he]
              exact List.mem_cons_of_mem np2 (List.mem_cons_self np3 rest3))
          have hnp32 : np3 ≠ np2 := by
            rw [hfree, hrest1, hrest2] at hndf
            intro he
            exact (List.nodup_cons.mp (List.nodup_cons.mp hndf).2).1
              (by rw [← he]; exact List.mem_cons_self np3 rest3)
          rw [pml4e_walk_eq_create_some m _ p4 va np1 rest1 _ hp4 hfree (by
            rw [writeEnt_read_self, pageOf_newEnt np1 h52a]
            rw [hrest1]
            exact pdpe_walk_eq_create_some _ _ np1 va np2 rest2 _ (by simp [hnp1p4])
              (by simp) (by
                rw [writeEnt_read_self, pageOf_newEnt np2 h52b]
                rw [hrest2]
                exact pgdir_walk_eq_create _ np2 va np3 rest3 (by simp [hnp21, hnp2p4])
                  (by simp)))] at hw
          rw [Prod.mk.injEq, Option.some.injEq, Prod.mk.injEq] at hw
          obtain ⟨⟨hpt, hi⟩, hw2⟩ := hw
          have hfull : m.free = np1 :: np2 :: np3 :: rest3 := by
            rw [hfree, hrest1, hrest2]
          rw [← hfull]
          refine ⟨?_, ?_, ?_⟩
          · intro w
            refine leafEntryAt_congr m m₁ p4 w ?_ ?_ ?_ ?_
            · by_cases hc : PML4 w = PML4 va
              · right
                refine ⟨by rw [hc]; exact hp4, Or.inr ?_⟩
                have hread : m₁.pages p4 (PML4 w) = newEnt np1 := by
                  rw [← hw2]
                  simp [Ne.symm hnp1p4, Ne.symm hnp2p4, Ne.symm hnp3p4, hc]
                rw [hread, pageOf_newEnt np1 h52a]
                intro j
                by_cases hj : j = PDPE va
                · right
                  have hr2 : m₁.pages np1 j = newEnt np2 := by
                    rw [← hw2]
                    simp [Ne.symm hnp21, Ne.symm hnp31, hj]
                  rw [hr2, pageOf_newEnt np2 h52b]
                  intro k
                  by_cases hk : k = PDX va
                  · right
                    have hr3 : m₁.pages np2 k = newEnt np3 := by
                      rw [← hw2]
                      simp [hk]
                    rw [hr3, pageOf_newEnt np3 h52c]
                    intro t
                    rw [← hw2]
                    simp [hnp32]
                  · left
                    rw [← hw2]
                    simp [hk, Ne.symm hnp32, hnp21, hnp2p4]
                · left
                  rw [← hw2]
                  simp [Ne.symm hnp21, Ne.symm hnp31, hj, hnp1p4]
              · left
                rw [← hw2]
                simp [Ne.symm hnp1p4, Ne.symm hnp2p4, Ne.symm hnp3p4, hc]
            · intro q hq
              have hq1 : q ≠ np1 := fun he =>
                (hfr np1 hm1f).1 (by rw [← he]; exact mem_trieNodes_of_level3 m p4 q hq)
              have hq2 : q ≠ np2 := fun he =>
                (hfr np2 hm2f).1 (by rw [← he]; exact mem_trieNodes_of_level3 m p4 q hq)
              have hq3 : q ≠ np3 := fun he =>
                (hfr np3 hm3f).1 (by rw [← he]; exact mem_trieNodes_of_level3 m p4 q hq)
              have hqp4 : q ≠ p4 := fun he => hD3 (he ▸ hq)
              left
              rw [← hw2]
              simp [hq1, hq2, hq3, hqp4]
            · intro q hq
              have hq1 : q ≠ np1 := fun he =>
                (hfr np1 hm1f).1 (by rw [← he]; exact mem_trieNodes_of_level2 m p4 q hq)
              have hq2 : q ≠ np2 := fun he =>
                (hfr np2 hm2f).1 (by rw [← he]; exact mem_trieNodes_of_level2 m p4 q hq)
              have hq3 : q ≠ np3 := fun he =>
                (hfr np3 hm3f).1 (by rw [← he]; exact mem_trieNodes_of_level2 m p4 q hq)
              have hqp4 : q ≠ p4 := fun he => hD2 (he ▸ hq)
              left
              rw [← hw2]
              simp [hq1, hq2, hq3, hqp4]
            · intro q hq
              have hq1 : q ≠ np1 := fun he =>
                (hfr np1 hm1f).1 (by rw [← he]; exact mem_trieNodes_of_level1 m p4 q hq)
              have hq2 : q ≠ np2 := fun he =>
                (hfr np2 hm2f).1 (by rw [← he]; exact mem_trieNodes_of_level1 m p4 q hq)
              have hq3 : q ≠ np3 := fun he =>
                (hfr np3 hm3f).1 (by rw [← he]; exact mem_trieNodes_of_level1 m p4 q hq)
              have hqp4 : q ≠ p4 := fun he => hD1 (he ▸ hq)
              left
              rw [← hw2]
              simp [hq1, hq2, hq3, hqp4]
          · right
            rw [← hw2, ← hpt, pageOf_newEnt np3 h52c]
            simp [hnp32]
          · intro pg hpg j hch
            have hpg1 : pg ≠ np1 := fun he => hpg (by rw [he]; exact hm1f)
            have hpg2 : pg ≠ np2 := fun he => hpg (by rw [he]; exact hm2f)
            have hpg3 : pg ≠ np3 := fun he => hpg (by rw [he]; exact hm3f)
            by_cases hc : pg = p4 ∧ j = PML4 va
            · refine ⟨np1, hm1f, ?_⟩
              rw [← hw2]
              simp [hc.1, hc.2, Ne.symm hnp1p4, Ne.symm hnp2p4, Ne.symm hnp3p4,
                hpg1, hpg2, hpg3]
            · exact absurd (by rw [← hw2]; simp [hc, hpg1, hpg2, hpg3]) hch
  · -- top-level slot Present
    have hd1l3 : pageOf (m.pages p4 (PML4 va)) ∈ level3 m p4 :=
      mem_childrenOf m p4 (PML4 va) (PML4_lt va) hp4
    have hp4d1 : p4 ≠ pageOf (m.pages p4 (PML4 va)) :=
      fun he => hD3 (by nth_rewrite 2 [he]; exact hd1l3)
    rw [pml4e_walk_eq_pass m p4 va true hp4] at hw
    by_cases hp3 : m.pages (pageOf (m.pages p4 (PML4 va))) (PDPE va) &&& PTE_P = 0
    · -- level-3 slot absent: page directory and page table are fresh
      cases hfree : m.free with
      | nil =>
        rw [pdpe_walk_eq_allocfail _ _ va hp3 hfree] at hw
        exact absurd (congrArg Prod.fst hw) (by simp)
      | cons np rest =>
        have hmf : np ∈ m.free := by rw [hfree]; exact List.mem_cons_self np rest
        have h52a : np < 2 ^ 52 := (hfr np hmf).2
        have hnpp4 : np ≠ p4 := fun he =>
          (hfr np hmf).1 (by rw [he]; exact mem_trieNodes_self m p4)
        have hnpd1 : np ≠ pageOf (m.pages p4 (PML4 va)) := fun he =>
          (hfr np hmf).1 (by rw [he]; exact mem_trieNodes_of_level3 m p4 _ hd1l3)
        cases hrest : rest with
        | nil =>
          rw [pdpe_walk_eq_create_none _ _ _ va np rest hp3 hfree (by
            rw [writeEnt_read_self, pageOf_newEnt np h52a]
            exact pgdir_walk_eq_allocfail _ np va (by simp [hnpd1]) (by simp [hrest]))] at hw
          exact absurd (congrArg Prod.fst hw) (by simp)
        | cons np2 rest2 =>
          have hm2f : np2 ∈ m.free := by
            rw [hfree, hrest]
            exact List.mem_cons_of_mem np (List.mem_cons_self np2 rest2)
          have h52b : np2 < 2 ^ 52 := (hfr np2 hm2f).2
          have hnp2p4 : np2 ≠ p4 := fun he =>
            (hfr np2 hm2f).1 (by rw [he]; exact mem_trieNodes_self m p4)
          have hnp2d1 : np2 ≠ pageOf (m.pages p4 (PML4 va)) := fun he =>
            (hfr np2 hm2f).1 (by rw [he]; exact mem_trieNodes_of_level3 m p4 _ hd1l3)
          have hnp21 : np2 ≠ np := by
            rw [hfree, hrest] at hndf
            intro he
            exact (List.nodup_cons.mp hndf).1 (by rw [← he]; exact List.mem_cons_self np2 rest2)
          rw [pdpe_walk_eq_create_some _ _ _ va np rest _ hp3 hfree (by
            rw [writeEnt_read_self, pageOf_newEnt np h52a]
            rw [hrest]
            exact pgdir_walk_eq_create _ np va np2 rest2 (by simp [hnpd1]) (by simp))] at hw
          rw [Prod.mk.injEq, Option.some.injEq, Prod.mk.injEq] at hw
          obtain ⟨⟨hpt, hi⟩, hw2⟩ := hw
          have hfull : m.free = np :: np2 :: rest2 := by
            rw [hfree, hrest]
          rw [← hfull]
          refine ⟨?_, ?_, ?_⟩
          · intro w
            refine leafEntryAt_congr m m₁ p4 w ?_ ?_ ?_ ?_
            · left
              rw [← hw2]
              simp [Ne.symm hnpp4, Ne.symm hnp2p4, hp4d1]
            · intro q hq
              have hqnp : q ≠ np := fun he =>
                (hfr np hmf).1 (by rw [← he]; exact mem_trieNodes_of_level3 m p4 q hq)
              have hqnp2 : q ≠ np2 := fun he =>
                (hfr np2 hm2f).1 (by rw [← he]; exact mem_trieNodes_of_level3 m p4 q hq)
              by_cases hc : q = pageOf (m.pages p4 (PML4 va)) ∧ PDPE w = PDPE va
              · right
                refine ⟨by rw [hc.1, hc.2]; exact hp3, Or.inr ?_⟩
                have hread : m₁.pages q (PDPE w) = newEnt np := by
                  rw [← hw2]
                  simp [hqnp, hqnp2, hc.1, hc.2, Ne.symm hnpd1, Ne.symm hnp2d1]
                rw [hread, pageOf_newEnt np h52a]
                intro j
                by_cases hj : j = PDX va
                · right
                  have hr2 : m₁.pages np j = newEnt np2 := by
                    rw [← hw2]
                    simp [hj]
                  rw [hr2, pageOf_newEnt np2 h52b]
                  intro k
                  rw [← hw2]
                  simp [hnp21]
                · left
                  rw [← hw2]
                  simp [hj, Ne.symm hnp21, hnpd1]
              · left
                rw [← hw2]
                simp [hc, hqnp, hqnp2]
            · intro q hq
              have hqnp : q ≠ np := fun he =>
                (hfr np hmf).1 (by rw [← he]; exact mem_trieNodes_of_level2 m p4 q hq)
              have hqnp2 : q ≠ np2 := fun he =>
                (hfr np2 hm2f).1 (by rw [← he]; exact mem_trieNodes_of_level2 m p4 q hq)
              have hqd1 : q ≠ pageOf (m.pages p4 (PML4 va)) := fun he =>
                (hL3 _ hd1l3).1 (by rw [← he]; exact hq)
              left
              rw [← hw2]
              simp [hqnp, hqnp2, hqd1]
            · intro q hq
              have hqnp : q ≠ np := fun he =>
                (hfr np hmf).1 (by rw [← he]; exact mem_trieNodes_of_level1 m p4 q hq)
              have hqnp2 : q ≠ np2 := fun he =>
                (hfr np2 hm2f).1 (by rw [← he]; exact mem_trieNodes_of_level1 m p4 q hq)
              have hqd1 : q ≠ pageOf (m.pages p4 (PML4 va)) := fun he =>
                (hL3 _ hd1l3).2 (by rw [← he]; exact hq)
              left
              rw [← hw2]
              simp [hqnp, hqnp2, hqd1]
          · right
            rw [← hw2, ← hpt, pageOf_newEnt np2 h52b]
            simp [hnp21]
          · intro pg hpg j hch
            have hpgnp : pg ≠ np := fun he => hpg (by rw [he]; exact hmf)
            have hpgnp2 : pg ≠ np2 := fun he => hpg (by rw [he]; exact hm2f)
            by_cases hc : pg = pageOf (m.pages p4 (PML4 va)) ∧ j = PDPE va
            · refine ⟨np, hmf, ?_⟩
              rw [← hw2]
              simp [hc.1, hc.2, hpgnp, hpgnp2, Ne.symm hnpd1, Ne.symm hnp2d1]
            · exact absurd (by rw [← hw2]; simp [hc, hpgnp, hpgnp2]) hch
    · -- level-3 slot Present
      have hd2l2 : pageOf (m.pages (pageOf (m.pages p4 (PML4 va))) (PDPE va)) ∈ level2 m p4 :=
        mem_level2_of m p4 _ (PDPE va) hd1l3 (PDPE_lt va) hp3
      have hp4d2 : p4 ≠ pageOf (m.pages (pageOf (m.pages p4 (PML4 va))) (PDPE va)) :=
        fun he => hD2 (by nth_rewrite 2 [he]; exact hd2l2)
      have hd1d2 : pageOf (m.pages p4 (PML4 va)) ≠
          pageOf (m.pages (pageOf (m.pages p4 (PML4 va))) (PDPE va)) :=
        fun he => (hL3 _ hd1l3).1 (by nth_rewrite 1 [he]; exact hd2l2)
      rw [pdpe_walk_eq_pass _ _ va true hp3] at hw
      by_cases hp2 : m.pages (pageOf (m.pages (pageOf (m.pages p4 (PML4 va)))
          (PDPE va))) (PDX va) &&& PTE_P = 0
      · -- level-2 slot absent: only the page table is fresh
        cases hfree : m.free with
        | nil =>
          rw [pgdir_walk_eq_allocfail _ _ va hp2 hfree] at hw
          exact absurd (congrArg Prod.fst hw) (by simp)
        | cons np rest =>
          have hmf : np ∈ m.free := by rw [hfree]; exact List.mem_cons_self np rest
          have h52a : np < 2 ^ 52 := (hfr np hmf).2
          have hnpp4 : np ≠ p4 := fun he =>
            (hfr np hmf).1 (by rw [he]; exact mem_trieNodes_self m p4)
          have hnpd1 : np ≠ pageOf (m.pages p4 (PML4 va)) := fun he =>
            (hfr np hmf).1 (by rw [he]; exact mem_trieNodes_of_level3 m p4 _ hd1l3)
          have hnpd2 : np ≠ pageOf (m.pages (pageOf (m.pages p4 (PML4 va))) (PDPE va)) :=
            fun he => (hfr np hmf).1 (by rw [he]; exact mem_trieNodes_of_level2 m p4 _ hd2l2)
          rw [pgdir_walk_eq_create _ _ va np rest hp2 hfree] at hw
          rw [Prod.mk.injEq, Option.some.injEq, Prod.mk.injEq] at hw
          obtain ⟨⟨hpt, hi⟩, hw2⟩ := hw
          rw [← hfree]
          refine ⟨?_, ?_, ?_⟩
          · intro w
            refine leafEntryAt_congr m m₁ p4 w ?_ ?_ ?_ ?_
            · left
              rw [← hw2]
              simp [hp4d2, Ne.symm hnpp4]
            · intro q hq
              have hqd2 : q ≠ pageOf (m.pages (pageOf (m.pages p4 (PML4 va))) (PDPE va)) :=
                fun he => (hL3 q hq).1 (by rw [he]; exact hd2l2)
              have hqnp : q ≠ np := fun he =>
                (hfr np hmf).1 (by rw [← he]; exact mem_trieNodes_of_level3 m p4 q hq)
              left
              rw [← hw2]
              simp [hqd2, hqnp]
            · intro q hq
              have hqnp : q ≠ np := fun he =>
                (hfr np hmf).1 (by rw [← he]; exact mem_trieNodes_of_level2 m p4 q hq)
              by_cases hc : q = pageOf (m.pages (pageOf (m.pages p4 (PML4 va))) (PDPE va))
                  ∧ PDX w = PDX va
              · right
                refine ⟨by rw [hc.1, hc.2]; exact hp2, Or.inr ?_⟩
                have hread : m₁.pages q (PDX w) = newEnt np := by
                  rw [← hw2]
                  simp [hqnp, hc.1, hc.2]
                rw [hread, pageOf_newEnt np h52a]
                intro j
                rw [← hw2]
                simp [hnpd2]
              · left
                rw [← hw2]
                simp [hc, hqnp]
            · intro q hq
              have hqd2 : q ≠ pageOf (m.pages (pageOf (m.pages p4 (PML4 va))) (PDPE va)) :=
                fun he => hL2 _ hd2l2 (by rw [← he]; exact hq)
              have hqnp : q ≠ np := fun he =>
                (hfr np hmf).1 (by rw [← he]; exact mem_trieNodes_of_level1 m p4 q hq)
              left
              rw [← hw2]
              simp [hqd2, hqnp]
          · right
            rw [← hw2, ← hpt, pageOf_newEnt np h52a]
            simp [hnpd2]
          · intro pg hpg j hch
            have hpgnp : pg ≠ np := fun he => hpg (by rw [he]; exact hmf)
            by_cases hc : pg = pageOf (m.pages (pageOf (m.pages p4 (PML4 va))) (PDPE va))
                ∧ j = PDX va
            · refine ⟨np, hmf, ?_⟩
              rw [← hw2]
              simp [hc.1, hc.2, hpgnp, Ne.symm hnpd2]
            · exact absurd (by rw [← hw2]; simp [hc, hpgnp]) hch
      · -- whole path Present: nothing is created
        rw [pgdir_walk_eq_pass _ _ va true hp2] at hw
        rw [Prod.mk.injEq, Option.some.injEq, Prod.mk.injEq] at hw
        obtain ⟨⟨hpt, hi⟩, hw2⟩ := hw
        refine ⟨?_, ?_, ?_⟩
        · intro w
          rw [← hw2]
        · left
          rw [← hw2]
        · intro pg hpg j hch
          rw [← hw2] at hch
          exact absurd rfl hch

/-! ## Claim C8 -/

/-- C8: no walk call — with or without `create` — installs a leaf
mapping: the Present leaf entries of the trie are identical before and
after the call; a returned slot still holds its old contents (or 0, on
a freshly zeroed page table); and any entry the walk changed on a
retained page is either rolled back to 0 or a freshly materialized
interior-node entry, installed Present, Writable and User-accessible. -/
theorem c8_walk_installs_no_leaf (m m₁ : Mem) (p4 va : Nat) (c : Bool)
    (res : Option (Nat × Nat)) (hg : goodRoot m p4)
    (hw : pml4e_walk m (some p4) va c = (res, m₁)) :
    (∀ w, leafEntryAt m₁ (some p4) w = leafEntryAt m (some p4) w) ∧
    (∀ pt i, res = some (pt, i) → m₁.pages pt i = m.pages pt i ∨ m₁.pages pt i = 0) ∧
    (∀ pg, pg ∉ m.free → ∀ j, m₁.pages pg j ≠ m.pages pg j →
      m₁.pages pg j = 0 ∨ ∃ np ∈ m.free, m₁.pages pg j = newEnt np ∧
        m₁.pages pg j &&& (PTE_U ||| PTE_W ||| PTE_P) = PTE_U ||| PTE_W ||| PTE_P) := by
  cases c with
  | false =>
    rw [pml4e_walk_nocreate] at hw
    have hm : m = m₁ := congrArg Prod.snd hw
    refine ⟨fun w => by rw [← hm], fun pt i _ => Or.inl (by rw [← hm]), ?_⟩
    intro pg hpg j hch
    rw [← hm] at hch
    exact absurd rfl hch
  | true =>
    cases res with
    | none =>
      obtain ⟨h1, h2, h3⟩ := pml4e_walk_fail_spec m m₁ p4 va hg.2.1
        (fun f hf => (hg.2.2 f hf).2) (fun f hf => (hg.2.2 f hf).1) hw
      have hp4f : p4 ∉ m.free := fun hf => (hg.2.2 p4 hf).1 (mem_trieNodes_self m p4)
      refine ⟨?_, fun pt i h => absurd h (by simp), ?_⟩
      · intro w
        have hkeep : ∀ pg, pg ∉ m.free →
            ∀ j, m₁.pages pg j = m.pages pg j ∨
              (m.pages pg j &&& PTE_P = 0 ∧ m₁.pages pg j &&& PTE_P = 0) :=
          fun pg hpg j => slot_congr_of_keep m m₁ pg j
            (fun k => h2 pg hpg k) (fun k => h3 pg hpg k)
        refine leafEntryAt_congr m m₁ p4 w ?_ ?_ ?_ ?_
        · exact (hkeep p4 hp4f (PML4 w)).imp id (fun h => ⟨h.1, Or.inl h.2⟩)
        · intro q hq
          have hqf : q ∉ m.free :=
            fun hf => (hg.2.2 q hf).1 (mem_trieNodes_of_level3 m p4 q hq)
          exact (hkeep q hqf (PDPE w)).imp id (fun h => ⟨h.1, Or.inl h.2⟩)
        · intro q hq
          have hqf : q ∉ m.free :=
            fun hf => (hg.2.2 q hf).1 (mem_trieNodes_of_level2 m p4 q hq)
          exact (hkeep q hqf (PDX w)).imp id (fun h => ⟨h.1, Or.inl h.2⟩)
        · intro q hq
          have hqf : q ∉ m.free :=
            fun hf => (hg.2.2 q hf).1 (mem_trieNodes_of_level1 m p4 q hq)
          exact hkeep q hqf (PTX w)
      · intro pg hpg j hch
        rcases h3 pg hpg j with he | h0
        · exact absurd he hch
        · exact Or.inl h0
    | some r =>
      obtain ⟨pt, i⟩ := r
      obtain ⟨e1, e2, e3⟩ := pml4e_walk_create_leaf_spec m m₁ p4 va pt i hg hw
      refine ⟨e1, ?_, ?_⟩
      · intro pt1 i1 hres
        injection hres with hres2
        rw [Prod.mk.injEq] at hres2
        obtain ⟨hA, hB⟩ := hres2
        rw [← hA, ← hB]
        exact e2
      · intro pg hpg j hch
        obtain ⟨np, hnp, hval⟩ := e3 pg hpg j hch
        exact Or.inr ⟨np, hnp, hval,
          by rw [hval]; exact newEnt_low_flags np (hg.2.2 np hnp).2⟩

set_option maxRecDepth 4000 in
/-- C8 witness: on the empty root 10 with free frames `[1, 2, 3]` the
creating walk for virtual address 0 succeeds, materializing all three
interior levels, and the theorem applies: the Present leaf entry
visible at address 0 is unchanged (absent before and after). -/
theorem c8_walk_installs_no_leaf_witness :
    goodRoot mFree3 10 ∧
    leafEntryAt (pml4e_walk mFree3 (some 10) 0 true).2 (some 10) 0 =
      leafEntryAt mFree3 (some 10) 0 :=
  ⟨⟨by decide, by decide, by decide⟩,
   (c8_walk_installs_no_leaf mFree3 (pml4e_walk mFree3 (some 10) 0 true).2 10 0 true
     (pml4e_walk mFree3 (some 10) 0 true).1
     ⟨by decide, by decide, by decide⟩ rfl).1 0⟩

end Pintos
